import Mathlib

/-!
Shallow embedding of the django-haul import/export engine
(`haul/containers/_import.py`, `haul/containers/_export.py`, `haul/policy.py`,
`haul/types.py`), restricted to the data and control flow the specification's
claims are about.

Modelling conventions:
* Django model instances are opaque handles; a live instance is a `Nat`
  (its primary key in the destination store) and Python `None` is
  `Option.none`, so the values stored in the identity map are `Option Nat`.
* The DRF serializer (`Exporter`) is an external codec: each `ObjectData`
  carries `desData`, the typed-field mapping that `exporter.validated_data`
  would produce for its `serialized_data`.  The deserialization phase copies
  it into `fields` and extracts `Ref` values, exactly as the source does.
* Side effects on the external store (`objects.create`, `instance.save`,
  `_assign_model_fields`) are recorded as events in the `DB` value; calls to
  policy hooks (`post_object_import`, `process_attachment`) are recorded as
  events in the engine state.
* `graphlib.TopologicalSorter` is embedded operationally (`Sorter`), with
  `done` raising the same "already marked done" / "not passed out" errors as
  CPython's graphlib, and `prepare`'s CycleError check embedded as repeated
  elimination of dependency-free nodes (raise iff a cycle exists, which is
  graphlib's documented contract).
* Python `set` iteration (action grouping, container streams) is embedded as
  `List.dedup` (first-occurrence order).
-/

/-- `haul.types.ID`: (kind, primary-key) pair naming an object. -/
structure ID where
  kind : String
  pk : Nat
deriving DecidableEq, Repr

/-- `haul.types.Ref`: a typed reference edge discovered by the codec. -/
structure Ref where
  ids : List ID
  fieldName : String
  nullable : Bool := false
  weak : Bool := false
deriving DecidableEq, Repr

/-- A typed field value as seen by the import engine:
either a `Ref`, opaque scalar data, a resolved live instance,
a list of resolved instances (M2M), or Python `None`. -/
inductive Value where
  | ref (r : Ref)
  | scalar (n : Nat)
  | instV (i : Nat)
  | instList (l : List (Option Nat))
  | null
deriving DecidableEq, Repr

/-- A typed-field mapping (`obj.fields`), a Python dict with string keys. -/
abbrev Fields := List (String × Value)

/-- `haul.types.Attachment` (import side): id, caller key and the container
stream handle it came from (`_container_stream`). -/
structure Attachment where
  attId : String
  key : Nat
  containerStream : Option Nat := none
deriving DecidableEq, Repr

/-- `haul.types.ObjectData`.  `desData` is the external codec's deserialized
form of `serializedData` (see module comment); `fields`/`refs` start empty
and are populated by the deserialization phase. -/
structure ObjectData where
  id : ID
  serializedData : Fields := []
  desData : Fields := []
  fields : Option Fields := none
  refs : List Ref := []
  attachments : List Attachment := []
deriving DecidableEq, Repr

/-- Per-record outcome of a relink action's `execute`:
a live model instance, Python `None`, or the literal `False`. -/
inductive RelinkResult where
  | instR (pk : Nat)
  | pyNone
  | pyFalse
deriving DecidableEq, Repr

/-- The instance value registered by `_register_imported` for a non-`False`
outcome (`None` is registered as-is). -/
def RelinkResult.toInst : RelinkResult → Option Nat
  | .instR pk => some pk
  | .pyNone => none
  | .pyFalse => none

/-- The fatal errors (`ValueError` / `RuntimeError` / `graphlib` errors /
Django `DoesNotExist` / `KeyError` / `IndexError`) the engine can raise. -/
inductive EngineError where
  | unknownVersion (v : Nat)
  | unknownKinds (ks : List String)
  | duplicateObject (id : ID)
  | unknownSegment (tag : String)
  | unregisteredKind (k : String)
  | deserializationFailed (k : String)
  | unresolvedReference (target : ID) (source : ID) (fieldName : String)
  | cycleDetected (members : List ID)
  | untangleFailed
  | consistencyPKUnknown (target : ID) (source : ID) (fieldName : String)
  | noFallback
  | indexError
  | keyError (id : ID)
  | doneUnknownNode (id : ID)
  | doneNotPassedOut (id : ID)
  | doneAlreadyDone (id : ID)
  | streamNotSet
  | doesNotExist (pk : Nat)
  | attachmentsRequireZip
  | attachmentsNotZip
  | fuelExhausted
deriving DecidableEq, Repr

/-- Schema metadata the engine reads from the model registry for one kind:
which fields are many-to-many, which are one-to-many, and the
`related_name`s of reverse FK relations (`ManyToOneRel`). -/
structure KindMeta where
  m2mFields : List String := []
  one2mFields : List String := []
  reverseNames : List String := []
deriving DecidableEq, Repr

/-- A `setattr`/M2M-set call performed on a store instance by
`_assign_model_fields` (external side effect, recorded as an event). -/
structure AssignEvent where
  target : Nat
  assigned : Fields
deriving DecidableEq, Repr

/-- The external record store: existing primary keys, the next fresh key
handed out by `objects.create`, and recorded field assignments. -/
structure DB where
  existing : List Nat := []
  next : Nat := 0
  assigns : List AssignEvent := []
deriving DecidableEq, Repr

/-- The action-specific data of one built-in relink action
(`haul.policy.RelinkAction`).  The lookup-based actions (`LinkByFields`,
`LinkByPK`) query the external store by field values and are not needed by
any claim, so they are not embedded. -/
inductive RActionBase where
  | logToConsole
  | create (ignoreFields : List String)
  | discardA
  | linkToInstance (pk : Nat) (overwriteFields : List String)
deriving DecidableEq, Repr

/-- A relink action value: its own data plus its chain of `fallback` actions
(`fallback`, `fallback.fallback`, ...).  Frozen dataclasses compare
structurally, which this encoding preserves. -/
structure RAction where
  base : RActionBase
  fbChain : List RActionBase := []
deriving DecidableEq, Repr

/-- `BaseRelinkAction.fallback`. -/
def RAction.fallbackOf (a : RAction) : Option RAction :=
  match a.fbChain with
  | [] => none
  | b :: rest => some ⟨b, rest⟩

/-- An `ImportPolicy`: the behaviour hooks the engine calls.
`preprocessFields`/`postprocessFields` mutate a record's field dict in
place; `relinkObject` picks a relink action per record. -/
structure Policy where
  relinkObject : String → ObjectData → RAction := fun _ _ => ⟨.create [], []⟩
  preprocessFields : String → Fields → Fields := fun _ fs => fs
  postprocessFields : String → Fields → Fields := fun _ fs => fs

/-- Static configuration of one import session: the exporter registry keys,
the kinds known to the model registry, per-kind schema metadata,
`ignore_unknown`, and the policy. -/
structure Config where
  registeredKinds : List String
  allKinds : List String := []
  kindMeta : String → KindMeta := fun _ => {}
  ignoreUnknown : Bool := false
  policy : Policy := {}

/-- One `process_attachment` call: the instance from the identity map, the
attachment's caller key, its container stream, and the archive member name
opened for it. -/
structure AttachmentEvent where
  inst : Option Nat
  key : Nat
  stream : Nat
  entryName : String
deriving DecidableEq, Repr

/-- Node bookkeeping state inside `graphlib.TopologicalSorter`:
waiting, passed out by `get_ready`, or marked done. -/
inductive NState where
  | waiting
  | out
  | fin
deriving DecidableEq, Repr

/-- One node's info in the sorter: predecessor (dependency) count,
state, and successor list (with multiplicity, as in graphlib). -/
structure SNode where
  npreds : Nat := 0
  nstate : NState := .waiting
  succ : List ID := []
deriving DecidableEq, Repr

/-- Operational embedding of `graphlib.TopologicalSorter`. -/
structure Sorter where
  info : List (ID × SNode) := []
  ready : List ID := []
  npassedout : Nat := 0
  nfinished : Nat := 0
deriving DecidableEq, Repr

/-- Update the info entry of one node. -/
def Sorter.updInfo (s : Sorter) (i : ID) (f : SNode → SNode) : Sorter :=
  { s with info := s.info.map (fun p => if p.1 = i then (p.1, f p.2) else p) }

/-- `_get_or_create_nodeinfo`. -/
def Sorter.getOrCreate (s : Sorter) (i : ID) : Sorter :=
  if (s.info.lookup i).isSome then s
  else { s with info := s.info ++ [(i, {})] }

/-- `TopologicalSorter.add(node, *predecessors)`: bump the node's
predecessor count and register it as a successor of each predecessor
(with multiplicity). -/
def Sorter.addNode (s : Sorter) (node : ID) (preds : List ID) : Sorter :=
  let s := s.getOrCreate node
  let s := s.updInfo node (fun n => { n with npreds := n.npreds + preds.length })
  preds.foldl
    (fun s p =>
      let s := s.getOrCreate p
      s.updInfo p (fun n => { n with succ := n.succ ++ [node] }))
    s

/-- The ready-list computation done by `prepare()`: every known node with no
outstanding predecessors, in insertion order. -/
def Sorter.initialReady (s : Sorter) : Sorter :=
  { s with ready := (s.info.filter (fun p => p.2.npreds = 0)).map (·.1) }

/-- `get_ready()`: hand out the ready list, marking each handed-out node. -/
def Sorter.getReady (s : Sorter) : List ID × Sorter :=
  (s.ready,
    { s with
      ready := []
      npassedout := s.npassedout + s.ready.length
      info := s.info.map
        (fun p => if p.1 ∈ s.ready then (p.1, { p.2 with nstate := .out }) else p) })

/-- `is_active()`. -/
def Sorter.isActive (s : Sorter) : Bool :=
  s.nfinished < s.npassedout || !s.ready.isEmpty

/-- Decrement one successor's predecessor count after a `done`, appending it
to the ready list when the count reaches zero. -/
def Sorter.decSucc (s : Sorter) (u : ID) : Sorter :=
  let s := s.updInfo u (fun n => { n with npreds := n.npreds - 1 })
  if (s.info.lookup u).any (fun n => n.npreds = 0) then
    { s with ready := s.ready ++ [u] }
  else s

/-- `done(node)`: raises for unknown, not-passed-out or already-done nodes
(graphlib's ValueErrors), otherwise marks the node finished and decrements
its successors' predecessor counts. -/
def Sorter.doneNode (s : Sorter) (i : ID) : Except EngineError Sorter :=
  match s.info.lookup i with
  | none => .error (.doneUnknownNode i)
  | some n =>
    match n.nstate with
    | .waiting => .error (.doneNotPassedOut i)
    | .fin => .error (.doneAlreadyDone i)
    | .out =>
      let s := s.updInfo i (fun m => { m with nstate := .fin })
      let s := { s with nfinished := s.nfinished + 1 }
      .ok (n.succ.foldl Sorter.decSucc s)

/-- The whole mutable state of one `ImportContainer` session:
`self._objects` (in insertion order), `self.__instance_map`,
`self.__discarded_objects`, the report sets, recorded policy-hook events,
the sorter, and the external store. -/
structure EngineState where
  objects : List ObjectData
  instanceMap : List (ID × Option Nat) := []
  discarded : List ID := []
  reportImported : List (Option Nat) := []
  reportDiscarded : List ID := []
  postImportEvents : List (Option Nat) := []
  attachmentEvents : List AttachmentEvent := []
  relinkExecCount : Nat := 0
  orderingAttempted : Bool := false
  sorter : Sorter := {}
  db : DB := {}
deriving Repr

/-- The ids of the loaded objects (`self._objects.keys()`). -/
def objIds (objs : List ObjectData) : List ID :=
  objs.map (·.id)

/-- Fetch a loaded object by id (`self._objects[id]`); total with a junk
default, which is never reached because every id handed to it comes from
`self._objects` itself. -/
def getObjD (st : EngineState) (oid : ID) : ObjectData :=
  (st.objects.find? (fun o => o.id = oid)).getD { id := oid }

/-- Replace the stored object with the given id by a transformed copy
(Python mutates the shared `ObjectData` in place). -/
def updateObj (st : EngineState) (oid : ID) (f : ObjectData → ObjectData) : EngineState :=
  { st with objects := st.objects.map (fun o => if o.id = oid then f o else o) }

/-- Dict assignment `fields[k] = v`: replace in place, append if absent. -/
def setFieldVal (fs : Fields) (k : String) (v : Value) : Fields :=
  if fs.any (fun kv => kv.1 = k) then
    fs.map (fun kv => if kv.1 = k then (kv.1, v) else kv)
  else fs ++ [(k, v)]

/-- Apply a function to a record's field dict (asserted non-`None`). -/
def updateObjFields (st : EngineState) (oid : ID) (f : Fields → Fields) : EngineState :=
  updateObj st oid (fun o => { o with fields := some (f (o.fields.getD [])) })

/-- `ImportContainer._discard_objects`: add the ids to the private discard
set and the objects to the report's discard set (both set-unions). -/
def discardByIds (st : EngineState) (ids : List ID) : EngineState :=
  ids.foldl
    (fun st i =>
      { st with
        discarded := if i ∈ st.discarded then st.discarded else st.discarded ++ [i]
        reportDiscarded :=
          if i ∈ st.reportDiscarded then st.reportDiscarded else st.reportDiscarded ++ [i] })
    st

/-- `ImportContainer._register_imported`: add the instance to the report
of imported objects and bind the record's id to it in the identity map. -/
def registerImported (st : EngineState) (oid : ID) (inst : Option Nat) : EngineState :=
  { st with
    reportImported :=
      if inst ∈ st.reportImported then st.reportImported else st.reportImported ++ [inst]
    instanceMap :=
      if (st.instanceMap.lookup oid).isSome then
        st.instanceMap.map (fun p => if p.1 = oid then (p.1, inst) else p)
      else st.instanceMap ++ [(oid, inst)] }

/-- Group a list of ready object ids by kind, in first-appearance order
(`ImportContainer.__group_by_kind`, a dict-`setdefault` loop). -/
def groupIdsByKind (ids : List ID) : List (String × List ID) :=
  ((ids.map (·.kind)).dedup).map
    (fun k => (k, ids.filter (fun i => decide (i.kind = k))))

/-- Group the loaded objects by kind, in first-appearance order, keeping the
ids; same `setdefault` loop applied to `self._objects.values()`. -/
def groupByKind (objs : List ObjectData) : List (String × List ID) :=
  groupIdsByKind (objIds objs)

/-- Python truthiness of `obj.fields` (`if obj.fields`): a present,
non-empty dict. -/
def fieldsTruthy (o : ObjectData) : Bool :=
  match o.fields with
  | some fs => !fs.isEmpty
  | none => false

/-- The fieldset list built by `RelinkAction.Create.execute`: one per record
with truthy `fields`, with the `ignore_fields` keys dropped. -/
def createFieldsets (ignoreFields : List String) (objs : List ObjectData) : List Fields :=
  objs.filterMap (fun o =>
    if fieldsTruthy o then
      some ((o.fields.getD []).filter (fun kv => decide (kv.1 ∉ ignoreFields)))
    else none)

/-- `_get_non_x2m_fields`: drop many-to-many and one-to-many fields. -/
def getNonX2MFields (meta : KindMeta) (fs : Fields) : Fields :=
  fs.filter (fun kv => decide (kv.1 ∉ meta.m2mFields) && decide (kv.1 ∉ meta.one2mFields))

/-- The `model_cls.objects.create(...)` comprehension: one fresh store
instance per fieldset, in order. -/
def createAll (db : DB) : List Fields → List Nat × DB
  | [] => ([], db)
  | _ :: rest =>
    let pk := db.next
    let db2 := { db with existing := db.existing ++ [pk], next := db.next + 1 }
    let (pks, db3) := createAll db2 rest
    (pk :: pks, db3)

/-- The `_assign_model_fields(instance, fields, policy)` loop after creation:
each call writes the fieldset onto the instance and saves it (recorded as
an external-store event). -/
def assignAll (db : DB) (pairs : List (Nat × Fields)) : DB :=
  pairs.foldl (fun db p => { db with assigns := db.assigns ++ [⟨p.1, p.2⟩] }) db

/-- The `execute` method of each embedded relink action.
`LogToConsole` links every record to `None`; `Discard` to `False`;
`Create` creates one instance per truthy-fields record; `LinkToInstance`
fetches one fixed instance (`DoesNotExist` when absent) and links every
record to it. -/
def rawExec (b : RActionBase) (meta : KindMeta) (objs : List ObjectData) (db : DB) :
    Except EngineError (List RelinkResult × DB) :=
  match b with
  | .logToConsole => .ok (objs.map (fun _ => .pyNone), db)
  | .discardA => .ok (objs.map (fun _ => .pyFalse), db)
  | .create ignoreFields =>
    let fieldsets := createFieldsets ignoreFields objs
    let pksdb := createAll db (fieldsets.map (getNonX2MFields meta))
    let db3 := assignAll pksdb.2 (pksdb.1.zip fieldsets)
    .ok (pksdb.1.map .instR, db3)
  | .linkToInstance pk _ =>
    if pk ∈ db.existing then .ok (objs.map (fun _ => .instR pk), db)
    else .error (.doesNotExist pk)

/-- The `enumerate(instances)` scan for `None` entries, carrying the running
index. -/
def noneIndicesFrom (n : Nat) : List RelinkResult → List Nat
  | [] => []
  | r :: rest =>
    if r = .pyNone then n :: noneIndicesFrom (n + 1) rest
    else noneIndicesFrom (n + 1) rest

/-- The indices at which an `execute` result list holds the `None` marker
(`fallback_indices`). -/
def noneIndices (instances : List RelinkResult) : List Nat :=
  noneIndicesFrom 0 instances

/-- `[objects[i] for i in idxs]` as a total selection (used to state what
`selectIdxs` returns when every index is in range). -/
def objsAt (objs : List ObjectData) (idxs : List Nat) : List ObjectData :=
  idxs.filterMap (fun i => objs[i]?)

/-- `[objects[i] for i in fallback_indices]` (IndexError when out of
range). -/
def selectIdxs (objs : List ObjectData) : List Nat → Except EngineError (List ObjectData)
  | [] => .ok []
  | i :: rest =>
    match objs[i]? with
    | none => .error .indexError
    | some o => do
      let more ← selectIdxs objs rest
      .ok (o :: more)

/-- The positional splice `instances[index] = instance` over
`zip(fallback_instances, fallback_indices)`. -/
def spliceAt (instances : List RelinkResult) (idxs : List Nat)
    (fbResults : List RelinkResult) : List RelinkResult :=
  (fbResults.zip idxs).foldl (fun acc p => acc.set p.2 p.1) instances

/-- `BaseRelinkAction._execute`, generic over the action's own `execute`
and its fallback's `execute`: run the action; where it yields `None`,
invoke the fallback on exactly those records and splice its outputs back
positionally; raise when there is no fallback. -/
def baseExecute
    (runMain : List ObjectData → DB → Except EngineError (List RelinkResult × DB))
    (runFallback : Option (List ObjectData → DB → Except EngineError (List RelinkResult × DB)))
    (objs : List ObjectData) (db : DB) : Except EngineError (List RelinkResult × DB) := do
  let (instances, db2) ← runMain objs db
  if instances.any (fun x => decide (x = .pyNone)) then
    let idxs := noneIndices instances
    let fbObjs ← selectIdxs objs idxs
    match runFallback with
    | none => .error .noFallback
    | some fb => do
      let (fbInstances, db3) ← fb fbObjs db2
      .ok (spliceAt instances idxs fbInstances, db3)
  else .ok (instances, db2)

/-- `BaseRelinkActionWithFieldsOverwrite._execute`'s extra pass: for each
record paired with a live (truthy) instance, copy the selected fields onto
the instance and save it. -/
def overwriteStep (ow : List String) (objs : List ObjectData)
    (res : List RelinkResult × DB) : List RelinkResult × DB :=
  if ow.isEmpty then res
  else
    let (instances, db) := res
    let db2 := (objs.zip instances).foldl
      (fun db p =>
        match p.2 with
        | .instR pk =>
          let fs := p.1.fields.getD []
          let sel :=
            if ow = ["__all__"] then fs.filter (fun kv => decide (kv.1 ∉ ["pk", "id"]))
            else fs.filter (fun kv => decide (kv.1 ∈ ow))
          { db with assigns := db.assigns ++ [⟨pk, sel⟩] }
        | _ => db)
      db
    (instances, db2)

/-- The `_execute` entry point the engine calls on a chosen action: the
generic fallback logic over the action's own `execute`, plus the
fields-overwrite pass for overwrite-capable actions. -/
def RAction.execFull (a : RAction) (meta : KindMeta) (objs : List ObjectData) (db : DB) :
    Except EngineError (List RelinkResult × DB) :=
  let res := baseExecute (rawExec a.base meta)
    ((a.fallbackOf).map (fun f => rawExec f.base meta)) objs db
  match a.base with
  | .linkToInstance _ ow => res.map (overwriteStep ow objs)
  | _ => res

/-- Extract the `Ref` values among a record's deserialized fields
(`obj.add_reference` loop). -/
def extractRefs (fs : Fields) : List Ref :=
  fs.filterMap (fun kv => match kv.2 with | .ref r => some r | _ => none)

/-- Store the codec's output into each record of one kind batch:
`obj.fields = deserialized_data` plus reference extraction. -/
def applyDeserialize (st : EngineState) (ids : List ID) : EngineState :=
  ids.foldl
    (fun st oid =>
      updateObj st oid (fun o =>
        { o with fields := some o.desData, refs := extractRefs o.desData }))
    st

/-- The referential-closure scan run after each kind batch: the first
extracted reference target that is not a loaded object, if any. -/
def findUnresolved (objs : List ObjectData) : Option (ID × ID × String) :=
  objs.findSome? (fun o =>
    o.refs.findSome? (fun r =>
      r.ids.findSome? (fun t =>
        if t ∈ objIds objs then none else some (t, o.id, r.fieldName))))

/-- The deserialization loop over the kind groups: unknown kinds are
discarded under `ignore_unknown` and fatal otherwise; registered kinds are
deserialized and then the closure of all extracted references is
validated. -/
def deserializeGo (cfg : Config) :
    List (String × List ID) → EngineState → EngineState × Option EngineError
  | [], st => (st, none)
  | (kind, ids) :: rest, st =>
    if kind ∈ cfg.registeredKinds then
      let st2 := applyDeserialize st ids
      match findUnresolved st2.objects with
      | some (t, src, f) => (st2, some (.unresolvedReference t src f))
      | none => deserializeGo cfg rest st2
    else if cfg.ignoreUnknown then
      deserializeGo cfg rest (discardByIds st ids)
    else (st, some (.unregisteredKind kind))

/-- The deserialization phase of `import_objects`. -/
def deserializePhase (cfg : Config) (st : EngineState) : EngineState × Option EngineError :=
  deserializeGo cfg (groupByKind st.objects) st

/-- The dependency targets contributed by one reference at graph-build
time: nothing for weak references, otherwise the non-discarded targets. -/
def refDeps (discarded : List ID) (r : Ref) : List ID :=
  if r.weak then [] else r.ids.filter (fun i => decide (i ∉ discarded))

/-- A retained record's dependency list (`deps` in the graph-build loop). -/
def engineDepsOf (discarded : List ID) (o : ObjectData) : List ID :=
  (o.refs.map (refDeps discarded)).flatten

/-- The records entered into the topological sorter (the non-discarded
ones). -/
def retainedObjs (st : EngineState) : List ObjectData :=
  st.objects.filter (fun o => decide (o.id ∉ st.discarded))

/-- Dependency lookup by node id, as used for the cycle check. -/
def sorterDepsFun (st : EngineState) (oid : ID) : List ID :=
  engineDepsOf st.discarded (getObjD st oid)

/-- Build the sorter from the retained records (`sorter.add(obj, *deps)`
loop). -/
def buildSorter (st : EngineState) : Sorter :=
  (retainedObjs st).foldl (fun s o => s.addNode o.id (engineDepsOf st.discarded o)) {}

/-- The nodes of `rem` whose dependencies are all already eliminated. -/
def readyNodes (deps : ID → List ID) (rem : List ID) : List ID :=
  rem.filter (fun v => (deps v).all (fun d => decide (d ∉ rem)))

/-- Repeated elimination of dependency-free nodes; the non-empty leftover
is exactly the witness that `prepare()` raises CycleError (see module
comment). -/
def kahnPeel (deps : ID → List ID) : Nat → List ID → List ID
  | 0, rem => rem
  | fuel + 1, rem =>
    let rd := readyNodes deps rem
    if rd.isEmpty then rem
    else kahnPeel deps fuel (rem.filter (fun v => decide (v ∉ rd)))

/-- The graph-build step plus `prepare()` of `import_objects`: enter every
retained record with its non-weak, non-discarded dependencies, raise on a
dependency cycle, otherwise mark the dependency-free nodes ready. -/
def buildAndPrepare (st : EngineState) : EngineState × Option EngineError :=
  if (kahnPeel (sorterDepsFun st) (objIds (retainedObjs st)).length
      (objIds (retainedObjs st))).isEmpty then
    ({ st with orderingAttempted := true, sorter := (buildSorter st).initialReady }, none)
  else
    ({ st with orderingAttempted := true, sorter := buildSorter st },
      some (.cycleDetected (kahnPeel (sorterDepsFun st)
        (objIds (retainedObjs st)).length (objIds (retainedObjs st)))))

/-- `sorter.done(obj)` threaded through the engine state. -/
def sorterDone (st : EngineState) (oid : ID) : EngineState × Option EngineError :=
  match st.sorter.doneNode oid with
  | .error e => (st, some e)
  | .ok s => ({ st with sorter := s }, none)

/-- The `for id in ref.ids` loop of the resolution phase: skip targets
already in the identity map; for a discarded target either drop it from
the remaining set (nullable) or cascade-discard the referrer, mark it done
and break; any other target is a fatal consistency error.  Returns the
remaining ids and the per-reference `discarded` flag. -/
def resolveIdsLoop (oid : ID) (r : Ref) :
    List ID → EngineState → List ID → EngineState × List ID × Bool × Option EngineError
  | [], st, remaining => (st, remaining, false, none)
  | tid :: rest, st, remaining =>
    if (st.instanceMap.lookup tid).isSome then
      resolveIdsLoop oid r rest st remaining
    else if tid ∈ st.discarded then
      if r.nullable then
        resolveIdsLoop oid r rest st (remaining.erase tid)
      else
        let st2 := discardByIds st [oid]
        match sorterDone st2 oid with
        | (st3, some e) => (st3, remaining, true, some e)
        | (st3, none) => (st3, remaining, true, none)
    else
      (st, remaining, false, some (.consistencyPKUnknown tid oid r.fieldName))

/-- Resolve one reference of one record: weak references are skipped; when
the ids loop set the `discarded` flag the field is left untouched
(`continue`); otherwise the field is rewritten to the list of surviving
instances (many-to-many) or to the first surviving instance / `None`
(single-valued). -/
def resolveOneRef (meta : KindMeta) (oid : ID) (r : Ref) (st : EngineState) :
    EngineState × Option EngineError :=
  if r.weak then (st, none)
  else
    match resolveIdsLoop oid r r.ids st r.ids with
    | (st2, _, _, some e) => (st2, some e)
    | (st2, _, true, none) => (st2, none)
    | (st2, remaining, false, none) =>
      if r.fieldName ∈ meta.m2mFields then
        match remaining.find? (fun tid => (st2.instanceMap.lookup tid).isNone) with
        | some tid => (st2, some (.keyError tid))
        | none =>
          (updateObjFields st2 oid (fun fs => setFieldVal fs r.fieldName
            (.instList (remaining.map (fun tid => (st2.instanceMap.lookup tid).getD none)))),
           none)
      else
        match remaining with
        | [] => (updateObjFields st2 oid (fun fs => setFieldVal fs r.fieldName .null), none)
        | t0 :: _ =>
          match st2.instanceMap.lookup t0 with
          | none => (st2, some (.keyError t0))
          | some v =>
            (updateObjFields st2 oid (fun fs => setFieldVal fs r.fieldName
              (match v with | some pk => .instV pk | none => .null)),
             none)

/-- The `for ref in obj.refs` loop, stopping at the first raised error. -/
def resolveRefsLoop (meta : KindMeta) (oid : ID) :
    List Ref → EngineState → EngineState × Option EngineError
  | [], st => (st, none)
  | r :: rest, st =>
    match resolveOneRef meta oid r st with
    | (st2, some e) => (st2, some e)
    | (st2, none) => resolveRefsLoop meta oid rest st2

/-- Resolution of one batch record: resolve each of its references, then
pop the reverse-FK fields (`ManyToOneRel` related names). -/
def resolveObj (meta : KindMeta) (oid : ID) (st : EngineState) :
    EngineState × Option EngineError :=
  match resolveRefsLoop meta oid (getObjD st oid).refs st with
  | (st2, some e) => (st2, some e)
  | (st2, none) =>
    (updateObjFields st2 oid (fun fs => fs.filter (fun kv => decide (kv.1 ∉ meta.reverseNames))),
     none)

/-- Fold a state-and-error step over a list, stopping at the first error
(a raised exception aborts the surrounding loop). -/
def foldStop {α : Type} (f : α → EngineState → EngineState × Option EngineError) :
    List α → EngineState → EngineState × Option EngineError
  | [], st => (st, none)
  | a :: rest, st =>
    match f a st with
    | (st2, some e) => (st2, some e)
    | (st2, none) => foldStop f rest st2

/-- One per-record outcome of an executed relink action: `False` discards
the record (and marks it done), anything else is passed to the
post-import hook, registered, and marked done. -/
def processOutcome (oid : ID) (res : RelinkResult) (st : EngineState) :
    EngineState × Option EngineError :=
  match res with
  | .pyFalse => sorterDone (discardByIds st [oid]) oid
  | r =>
    let st2 := { st with postImportEvents := st.postImportEvents ++ [r.toInst] }
    sorterDone (registerImported st2 oid r.toInst) oid

/-- Execution of one action group: pair the gathered actions with the
unfiltered kind batch (`zip(relink_actions, objects)`), select the records
assigned this action, run the post-relink field hook on them, execute the
action, and process each outcome. -/
def executeActionGroup (cfg : Config) (kind : String) (kindOids : List ID)
    (acts : List RAction) (action : RAction) (st : EngineState) :
    EngineState × Option EngineError :=
  let actionOids := (acts.zip kindOids).filterMap
    (fun p => if p.1 = action then some p.2 else none)
  let st := actionOids.foldl
    (fun st oid => updateObjFields st oid (cfg.policy.postprocessFields kind)) st
  let st := { st with relinkExecCount := st.relinkExecCount + 1 }
  match action.execFull (cfg.kindMeta kind) (actionOids.map (getObjD st)) st.db with
  | .error e => (st, some e)
  | .ok (instances, db) =>
    foldStop (fun p => processOutcome p.1 p.2) (actionOids.zip instances) { st with db := db }

/-- Processing of one kind group of a ready batch: resolve every record's
references, run the pre-relink field hook on every record, gather relink
actions for the non-discarded ones, and execute each distinct action
group. -/
def processKind (cfg : Config) (kindGroup : String × List ID) (st : EngineState) :
    EngineState × Option EngineError :=
  let kind := kindGroup.1
  let kindOids := kindGroup.2
  let meta := cfg.kindMeta kind
  match foldStop (resolveObj meta) kindOids st with
  | (st2, some e) => (st2, some e)
  | (st2, none) =>
    let st3 := kindOids.foldl
      (fun st oid => updateObjFields st oid (cfg.policy.preprocessFields kind)) st2
    let acts := kindOids.filterMap (fun oid =>
      if oid ∈ st3.discarded then none
      else some (cfg.policy.relinkObject kind (getObjD st3 oid)))
    foldStop (executeActionGroup cfg kind kindOids acts) acts.dedup st3

/-- One ready batch, grouped by kind. -/
def processBatch (cfg : Config) (ready : List ID) (st : EngineState) :
    EngineState × Option EngineError :=
  foldStop (processKind cfg) (groupIdsByKind ready) st

/-- The `while sorter.is_active()` loop.  The fuel is one more than the
number of loaded objects, which the loop can never exhaust because every
iteration must hand out at least one ready node. -/
def batchLoop (cfg : Config) : Nat → EngineState → EngineState × Option EngineError
  | 0, st => (st, some .fuelExhausted)
  | fuel + 1, st =>
    if st.sorter.isActive then
      let (ready, sorter) := st.sorter.getReady
      let st := { st with sorter := sorter }
      if ready.isEmpty then (st, some .untangleFailed)
      else
        match processBatch cfg ready st with
        | (st2, some e) => (st2, some e)
        | (st2, none) => batchLoop cfg fuel st2
    else (st, none)

/-- Collect one record's attachment streams, raising when a stream handle
is unset. -/
def attStreams : List Attachment → Except EngineError (List Nat)
  | [] => .ok []
  | a :: rest =>
    match a.containerStream with
    | none => .error .streamNotSet
    | some s => do
      let more ← attStreams rest
      .ok (s :: more)

/-- The `container_streams` collection pass over every loaded object
(discarded ones included). -/
def collectStreams : List ObjectData → Except EngineError (List Nat)
  | [] => .ok []
  | o :: rest => do
    let ss ← attStreams o.attachments
    let more ← collectStreams rest
    .ok (ss ++ more)

/-- The delivery event for one attachment of one record. -/
def mkAttachmentEvent (inst : Option Nat) (s : Nat) (a : Attachment) : AttachmentEvent :=
  ⟨inst, a.key, s, "attachments/" ++ a.attId⟩

/-- Delivery loop for one open container archive: for every non-discarded
record, open each of its attachments addressed in this stream and hand it
to the policy's attachment handler together with the record's mapped
instance (`KeyError` when the record is unmapped). -/
def deliverForStream (imap : List (ID × Option Nat)) (disc : List ID) (s : Nat) :
    List ObjectData → Except EngineError (List AttachmentEvent)
  | [] => .ok []
  | o :: rest =>
    if o.id ∈ disc then deliverForStream imap disc s rest
    else if (o.attachments.filter (fun a => a.containerStream == some s)).isEmpty then
      deliverForStream imap disc s rest
    else
      match imap.lookup o.id with
      | none => .error (.keyError o.id)
      | some inst => do
        let more ← deliverForStream imap disc s rest
        .ok ((o.attachments.filter (fun a => a.containerStream == some s)).map
          (mkAttachmentEvent inst s) ++ more)

/-- Iterate the distinct container streams. -/
def deliverStreams (imap : List (ID × Option Nat)) (disc : List ID)
    (objs : List ObjectData) : List Nat → Except EngineError (List AttachmentEvent)
  | [] => .ok []
  | s :: rest => do
    let evs ← deliverForStream imap disc s objs
    let more ← deliverStreams imap disc objs rest
    .ok (evs ++ more)

/-- The attachment phase run after all batches: collect every attachment's
container stream, then deliver each non-discarded record's attachments
from its own stream. -/
def attachmentsPhase (objs : List ObjectData) (disc : List ID)
    (imap : List (ID × Option Nat)) : Except EngineError (List AttachmentEvent) := do
  let streams ← collectStreams objs
  deliverStreams imap disc objs streams.dedup

/-- `ImportContainer.import_objects`: deserialization, graph build and
`prepare`, the ready-batch loop, then attachment delivery.  Errors abort
the run but the state mutations already performed remain observable
(dict inserts, hook calls, store writes). -/
def importObjects (cfg : Config) (st : EngineState) : EngineState × Option EngineError :=
  match deserializePhase cfg st with
  | (st1, some e) => (st1, some e)
  | (st1, none) =>
    match buildAndPrepare st1 with
    | (st2, some e) => (st2, some e)
    | (st2, none) =>
      match batchLoop cfg (st2.objects.length + 1) st2 with
      | (st3, some e) => (st3, some e)
      | (st3, none) =>
        match attachmentsPhase st3.objects st3.discarded st3.instanceMap with
        | .error e => (st3, some e)
        | .ok evs => ({ st3 with attachmentEvents := evs }, none)

/-- A parsed container document (`yaml.load_all` output): a header, an
object document (with the codec's deserialized form of its data attached,
see module comment), or an unknown segment tag. -/
inductive Document where
  | header (version : Nat) (objectKinds : List String)
  | object (id : ID) (data : Fields) (desData : Fields) (attachments : List (String × Nat))
  | other (tag : String)
deriving DecidableEq, Repr

/-- The object-document ids of a document list, in order. -/
def docObjectIds (docs : List Document) : List ID :=
  docs.filterMap (fun d =>
    match d with
    | .object i _ _ _ => some i
    | _ => none)

/-- The document loop of `ImportContainer.read`: check the header version
and kinds, build each object (attachments bound to this container
stream), and raise on a duplicate id or an unknown segment. -/
def readDocuments (cfg : Config) (streamHandle : Nat) :
    List Document → List ObjectData → Except EngineError (List ObjectData)
  | [], objs => .ok objs
  | .header v kinds :: rest, objs =>
    if v ≠ 1 then .error (.unknownVersion v)
    else if !(kinds.filter (fun k => decide (k ∉ cfg.allKinds))).isEmpty &&
        !cfg.ignoreUnknown then
      .error (.unknownKinds (kinds.filter (fun k => decide (k ∉ cfg.allKinds))))
    else readDocuments cfg streamHandle rest objs
  | .object i data des atts :: rest, objs =>
    let obj : ObjectData :=
      { id := i
        serializedData := data
        desData := des
        attachments := atts.map (fun p => ⟨p.1, p.2, some streamHandle⟩) }
    if i ∈ objIds objs then .error (.duplicateObject i)
    else readDocuments cfg streamHandle rest (objs ++ [obj])
  | .other tag :: _, _ => .error (.unknownSegment tag)

/-- The engine state at the start of `import_objects`, given the loaded
objects and the destination store. -/
def initialState (objs : List ObjectData) (db : DB) : EngineState :=
  { objects := objs, db := db }

/-- One whole session: `read` a container stream, then `import_objects`.
When `read` raises, the import engine is never entered (`none` in the
first component). -/
def runSession (cfg : Config) (streamHandle : Nat) (docs : List Document) (db : DB) :
    Option EngineState × Option EngineError :=
  match readDocuments cfg streamHandle docs [] with
  | .error e => (none, some e)
  | .ok objs =>
    match importObjects cfg (initialState objs db) with
    | (st, e) => (some st, e)

/-- `haul.types.ContainerFormat`. -/
inductive ContainerFormat where
  | yaml
  | compressedZip
  | nonCompressedZip
deriving DecidableEq, Repr

/-- What `ExportContainer._write` emits into the output stream. -/
inductive WrittenEntry where
  | headerDoc (kinds : List String)
  | objectDoc (id : ID)
  | attachmentEntry (attId : String)
deriving DecidableEq, Repr

/-- The per-attachment archive-entry loop of `_write`, with its secondary
not-a-ZIP guard. -/
def writeAttachmentEntries (fmt : ContainerFormat) :
    List Attachment → Except EngineError (List WrittenEntry)
  | [] => .ok []
  | a :: rest =>
    if fmt = .yaml then .error .attachmentsNotZip
    else do
      let more ← writeAttachmentEntries fmt rest
      .ok (.attachmentEntry a.attId :: more)

/-- The document/attachment body of `_write` (after the format checks):
header, one document per object, then one archive entry per attachment. -/
def writeBody (fmt : ContainerFormat) (objs : List ObjectData) :
    Except EngineError (List WrittenEntry) := do
  let docs : List WrittenEntry :=
    .headerDoc ((objs.map (fun o => o.id.kind)).dedup) :: objs.map (fun o => .objectDoc o.id)
  let atts ← writeAttachmentEntries fmt (objs.map (·.attachments)).flatten
  .ok (docs ++ atts)

/-- `ExportContainer._write`: in the plain YAML format, any object with
attachments is a hard error before anything is written; ZIP formats write
the metadata plus one archive entry per attachment. -/
def writeContainer (objs : List ObjectData) (fmt : ContainerFormat) :
    Except EngineError (List WrittenEntry) :=
  if fmt = .yaml ∧ objs.any (fun o => !o.attachments.isEmpty) then
    .error .attachmentsRequireZip
  else writeBody fmt objs

/-- Identity of author 1 in the concrete scenarios. -/
def idA1 : ID := ⟨"a", 1⟩

/-- Identity of author 2 in the concrete scenarios. -/
def idA2 : ID := ⟨"a", 2⟩

/-- Identity of book 1 in the concrete scenarios. -/
def idB1 : ID := ⟨"b", 1⟩

/-- Identity of book 2 in the concrete scenarios. -/
def idB2 : ID := ⟨"b", 2⟩

/-- Scenario "two broken non-nullable references": author 1, discarded by
policy. -/
def objA1Br : ObjectData := { id := idA1, desData := [("name", .scalar 1)] }

/-- Scenario "two broken non-nullable references": a book whose `author`
and `editor` fields both reference the discarded author, both non-weak
and non-nullable. -/
def objB1Br : ObjectData :=
  { id := idB1
    desData := [("author", .ref ⟨[idA1], "author", false, false⟩),
                ("editor", .ref ⟨[idA1], "editor", false, false⟩)] }

/-- Policy discarding every author and creating everything else. -/
def polBr : Policy :=
  { relinkObject := fun k _ => if k = "a" then ⟨.discardA, []⟩ else ⟨.create [], []⟩ }

/-- Config for the two-broken-references scenario. -/
def cfgBr : Config := { registeredKinds := ["a", "b"], policy := polBr }

/-- The two-broken-references run. -/
def runBr : EngineState × Option EngineError :=
  importObjects cfgBr (initialState [objA1Br, objB1Br] {})

/-- Scenario "discarded record misaligned into an action group":
author 1 (discarded by policy) and author 2 (created). -/
def objA1Mis : ObjectData := { id := idA1, desData := [("name", .scalar 1)] }

/-- Second author of the misalignment scenario. -/
def objA2Mis : ObjectData := { id := idA2, desData := [("name", .scalar 2)] }

/-- Book 1: non-nullable reference to the author the policy discards, so it
is cascade-discarded during resolution of its batch. -/
def objB1Mis : ObjectData :=
  { id := idB1, desData := [("author", .ref ⟨[idA1], "author", false, false⟩)] }

/-- Book 2: non-nullable reference to the surviving author; the policy
links it to the fixed existing instance 7. -/
def objB2Mis : ObjectData :=
  { id := idB2, desData := [("author", .ref ⟨[idA2], "author", false, false⟩)] }

/-- Policy of the misalignment scenario: discard author 1, create author 2,
link books to the existing instance 7. -/
def polMis : Policy :=
  { relinkObject := fun k o =>
      if k = "a" then
        (if o.id.pk = 1 then ⟨.discardA, []⟩ else ⟨.create [], []⟩)
      else ⟨.linkToInstance 7 [], []⟩ }

/-- Config for the misalignment scenario. -/
def cfgMis : Config := { registeredKinds := ["a", "b"], policy := polMis }

/-- The misalignment run, against a store already holding instance 7. -/
def runMis : EngineState × Option EngineError :=
  importObjects cfgMis
    (initialState [objA1Mis, objA2Mis, objB1Mis, objB2Mis] { existing := [7], next := 8 })

/-- Scenario "fallback yields None": a single record whose relink action is
`LogToConsole` with a `LogToConsole` fallback, which itself carries a
`Discard` fallback that would discard the record if it were consulted. -/
def objSoloNone : ObjectData := { id := idA1, desData := [("name", .scalar 5)] }

/-- Policy of the fallback-None scenario. -/
def polNone : Policy :=
  { relinkObject := fun _ _ => ⟨.logToConsole, [.logToConsole, .discardA]⟩ }

/-- Config for the fallback-None scenario. -/
def cfgNone : Config := { registeredKinds := ["a"], policy := polNone }

/-- The fallback-None run. -/
def runNone : EngineState × Option EngineError :=
  importObjects cfgNone (initialState [objSoloNone] {})

/-- A dependency cycle among the nodes `ns`: a non-empty list of node ids,
each contained in `ns`, in which every node's cyclic successor is one of
its dependencies.  This is the "cycle among non-weak reference edges"
notion of the ordering phase. -/
def IsDepCycle (deps : ID → List ID) (ns : List ID) (c : List ID) : Prop :=
  c ≠ [] ∧ (∀ x ∈ c, x ∈ ns) ∧
    ∀ i : Fin c.length,
      c.get ⟨(i.1 + 1) % c.length, Nat.mod_lt _ i.pos⟩ ∈ deps (c.get i)

/-- In a stalled node set `S` (no member has all dependencies outside `S`),
pick the first dependency of `v` inside `S`. -/
def stallNext (deps : ID → List ID) (S : List ID) (v : ID) : ID :=
  ((deps v).find? (fun d => decide (d ∈ S))).getD v

/-- Iterate `stallNext` from a start node; used to extract a cycle from a
stalled set by pigeonhole. -/
def stallWalk (deps : ID → List ID) (S : List ID) (v0 : ID) : Nat → ID
  | 0 => v0
  | n + 1 => stallNext deps S (stallWalk deps S v0 n)

/-- C1.  The nullable half of the claim holds, but "no further processing
of that record happens" does not: after the referrer is cascade-discarded
and marked done on its first broken non-nullable reference, the engine
keeps iterating its remaining references, and a second non-nullable
reference to a discarded target repeats `_discard_objects` and calls
`sorter.done` on the already-done node, aborting the whole import with the
ordering structure's "already marked done" error instead of skipping the
record.  This theorem evaluates the engine at that failing input: the
referrer is discarded and never materialized, and the run aborts. -/
theorem c1_discarded_referrer_still_processed :
    runBr.2 = some (.doneAlreadyDone idB1) ∧
      idB1 ∈ runBr.1.discarded ∧
      runBr.1.instanceMap = [] ∧
      runBr.1.reportImported = [] := by
  decide

/-- C2.  A record discarded during its batch's resolution phase is not
terminal: the relink gathering zips the discard-filtered action list
against the unfiltered batch, so the discarded book 1 is paired with book
2's `LinkToInstance` action, executed, handed to the post-import hook,
inserted into the identity map and added to the imported report (the run
then aborts on the duplicate `done`).  This theorem evaluates the engine at
that failing input. -/
theorem c2_discarded_record_not_terminal :
    idB1 ∈ runMis.1.discarded ∧
      runMis.1.instanceMap.lookup idB1 = some (some 7) ∧
      some 7 ∈ runMis.1.postImportEvents ∧
      some 7 ∈ runMis.1.reportImported ∧
      runMis.2 = some (.doneAlreadyDone idB1) := by
  decide

/-- C10.  When the fallback's own `execute` also yields `None`, no error is
raised and the fallback's fallback is not consulted (the `Discard` at the
end of the chain would otherwise discard the record): the `None` is
spliced into the results, registered in the identity map, handed to the
post-import hook, and the record is reported as imported rather than
discarded or failed. -/
theorem c10_fallback_none_registered_as_imported :
    runNone.2 = none ∧
      runNone.1.instanceMap = [(idA1, none)] ∧
      runNone.1.reportImported = [none] ∧
      runNone.1.postImportEvents = [none] ∧
      runNone.1.discarded = [] ∧
      runNone.1.reportDiscarded = [] := by
  decide

theorem writeAttachmentEntries_ok_of_ne_yaml (fmt : ContainerFormat) (h : fmt ≠ .yaml) :
    ∀ l : List Attachment, ∃ es, writeAttachmentEntries fmt l = .ok es := by
  intro l
  induction l with
  | nil => exact ⟨[], rfl⟩
  | cons a rest ih =>
    obtain ⟨es, hes⟩ := ih
    refine ⟨.attachmentEntry a.attId :: es, ?_⟩
    unfold writeAttachmentEntries
    rw [if_neg h, hes]
    rfl

theorem flatten_attachments_nil (objs : List ObjectData)
    (h : ∀ o ∈ objs, o.attachments = []) : (objs.map (·.attachments)).flatten = [] := by
  induction objs with
  | nil => rfl
  | cons o rest ih =>
    simp only [List.map_cons, List.flatten_cons]
    rw [h o (by simp), ih (fun x hx => h x (by simp [hx]))]
    rfl

/-- C8.  Writing an export container in the plain single-metadata-stream
(YAML) format is a hard error as soon as any contained object has an
attachment; a plain container without attachments and every archive-based
format write succeed, so attachments are only accepted by the archive
formats. -/
theorem c8_plain_format_rejects_attachments (objs : List ObjectData) :
    ((∃ o ∈ objs, o.attachments ≠ []) →
        writeContainer objs .yaml = .error .attachmentsRequireZip) ∧
      ((∀ o ∈ objs, o.attachments = []) → ∃ es, writeContainer objs .yaml = .ok es) ∧
      (∀ fmt, fmt ≠ .yaml → ∃ es, writeContainer objs fmt = .ok es) := by
  refine ⟨?_, ?_, ?_⟩
  · rintro ⟨o, ho, hatt⟩
    have hany : objs.any (fun o => !o.attachments.isEmpty) = true := by
      simp only [List.any_eq_true]
      exact ⟨o, ho, by simpa using hatt⟩
    simp [writeContainer, hany]
  · intro h
    have hany : objs.any (fun o => !o.attachments.isEmpty) = false := by
      simp only [List.any_eq_false]
      intro o ho
      simp [h o ho]
    refine ⟨.headerDoc ((objs.map (fun o => o.id.kind)).dedup) ::
      (objs.map (fun o => .objectDoc o.id) ++ []), ?_⟩
    unfold writeContainer
    rw [if_neg (by simp [hany]), writeBody, flatten_attachments_nil objs h]
    rfl
  · intro fmt hfmt
    obtain ⟨es, hes⟩ :=
      writeAttachmentEntries_ok_of_ne_yaml fmt hfmt (objs.map (·.attachments)).flatten
    refine ⟨.headerDoc ((objs.map (fun o => o.id.kind)).dedup) ::
      (objs.map (fun o => .objectDoc o.id) ++ es), ?_⟩
    unfold writeContainer
    rw [if_neg (by simp [hfmt]), writeBody, hes]
    rfl

/-- Witness for C8 at a concrete input: one object with an attachment makes
the plain write fail, and the compressed-archive write of the same objects
succeeds. -/
theorem c8_plain_format_rejects_attachments_witness :
    writeContainer [{ id := idA1, attachments := [⟨"x", 0, none⟩] }] .yaml =
        .error .attachmentsRequireZip ∧
      ∃ es, writeContainer [{ id := idA1, attachments := [⟨"x", 0, none⟩] }]
        .compressedZip = .ok es := by
  constructor
  · exact (c8_plain_format_rejects_attachments _).1
      ⟨{ id := idA1, attachments := [⟨"x", 0, none⟩] }, by simp, by simp⟩
  · exact (c8_plain_format_rejects_attachments _).2.2 .compressedZip (by simp)

theorem createFieldsets_eq (ign : List String) (objs : List ObjectData) :
    createFieldsets ign objs =
      (objs.filter fieldsTruthy).map
        (fun o => (o.fields.getD []).filter (fun kv => decide (kv.1 ∉ ign))) := by
  induction objs with
  | nil => rfl
  | cons o rest ih =>
    by_cases h : fieldsTruthy o
    · simp [createFieldsets, List.filterMap_cons, h, List.filter_cons] at ih ⊢
      exact ih
    · simp only [Bool.not_eq_true] at h
      simp [createFieldsets, List.filterMap_cons, h, List.filter_cons] at ih ⊢
      exact ih

theorem createAll_fst (fsets : List Fields) (db : DB) :
    (createAll db fsets).1 = (List.range fsets.length).map (fun k => db.next + k) := by
  induction fsets generalizing db with
  | nil => simp [createAll]
  | cons fs rest ih =>
    show db.next :: (createAll _ rest).1 = _
    rw [ih]
    simp only [List.length_cons, List.range_succ_eq_map, List.map_cons, List.map_map]
    refine congrArg₂ _ (by omega) (List.map_congr_left ?_)
    intro k _
    simp only [Function.comp]
    omega

/-- C9.  `RelinkAction.Create.execute` builds one fieldset per record whose
typed-fields mapping is truthy (non-empty), in input order, and returns
exactly one freshly created instance per such record; records with an
empty mapping contribute no entry, so the result can be shorter than the
input and the caller's positional `zip` pairing shifts for all subsequent
records. -/
theorem c9_create_skips_empty_fields (ign : List String) (meta : KindMeta)
    (objs : List ObjectData) (db : DB) :
    ∃ db2, rawExec (.create ign) meta objs db =
        .ok ((List.range (objs.filter fieldsTruthy).length).map
          (fun k => .instR (db.next + k)), db2) ∧
      createFieldsets ign objs =
        (objs.filter fieldsTruthy).map
          (fun o => (o.fields.getD []).filter (fun kv => decide (kv.1 ∉ ign))) ∧
      (objs.filter fieldsTruthy).length ≤ objs.length ∧
      ((∃ o ∈ objs, fieldsTruthy o = false) →
        (objs.filter fieldsTruthy).length < objs.length) := by
  have hlen : ((createFieldsets ign objs).map (getNonX2MFields meta)).length =
      (objs.filter fieldsTruthy).length := by
    rw [List.length_map, createFieldsets_eq, List.length_map]
  have hpks : (createAll db ((createFieldsets ign objs).map (getNonX2MFields meta))).1 =
      (List.range (objs.filter fieldsTruthy).length).map (fun k => db.next + k) := by
    rw [createAll_fst, hlen]
  refine ⟨assignAll (createAll db ((createFieldsets ign objs).map (getNonX2MFields meta))).2
      ((createAll db ((createFieldsets ign objs).map (getNonX2MFields meta))).1.zip
        (createFieldsets ign objs)),
    ?_, createFieldsets_eq ign objs, List.length_filter_le _ _, ?_⟩
  · show Except.ok ((createAll db ((createFieldsets ign objs).map (getNonX2MFields meta))).1.map
      RelinkResult.instR, _) = _
    rw [hpks, List.map_map]
    rfl
  · intro ⟨o, ho, hf⟩
    exact List.length_filter_lt_length_iff_exists.mpr ⟨o, ho, by simp [hf]⟩

/-- Witness for C9 at a concrete input: three records, the middle one with
an empty mapping, yield two instances; the instance created from the third
record is paired by position with the second fieldset. -/
theorem c9_create_skips_empty_fields_witness :
    ∃ db2, rawExec (.create []) {}
        [{ id := idA1, fields := some [("name", .scalar 1)] },
         { id := idA2, fields := some [] },
         { id := ⟨"a", 3⟩, fields := some [("name", .scalar 3)] }] { next := 10 } =
      .ok ([.instR 10, .instR 11], db2) := by
  obtain ⟨db2, hrun, _, _, hlt⟩ := c9_create_skips_empty_fields [] {}
    [{ id := idA1, fields := some [("name", .scalar 1)] },
     { id := idA2, fields := some [] },
     { id := ⟨"a", 3⟩, fields := some [("name", .scalar 3)] }] { next := 10 }
  have h2 : (([{ id := idA1, fields := some [("name", Value.scalar 1)] },
      { id := idA2, fields := some [] },
      { id := ⟨"a", 3⟩, fields := some [("name", Value.scalar 3)] }] :
        List ObjectData).filter fieldsTruthy).length = 2 := by decide
  rw [h2] at hrun
  have hlt2 := hlt ⟨{ id := idA2, fields := some [] }, by decide, by decide⟩
  exact ⟨db2, by simpa using hrun⟩

theorem mem_noneIndicesFrom (rs : List RelinkResult) :
    ∀ n i, i ∈ noneIndicesFrom n rs → n ≤ i ∧ rs[i - n]? = some .pyNone := by
  induction rs with
  | nil => intro n i h; simp [noneIndicesFrom] at h
  | cons r rest ih =>
    intro n i h
    by_cases hr : r = .pyNone
    · rw [noneIndicesFrom, if_pos hr] at h
      rcases List.mem_cons.mp h with h0 | hmem
      · subst h0
        exact ⟨Nat.le_refl _, by simp [hr]⟩
      · obtain ⟨hle, hget⟩ := ih (n + 1) i hmem
        refine ⟨by omega, ?_⟩
        have he : i - n = (i - (n + 1)) + 1 := by omega
        rw [he, List.getElem?_cons_succ]
        exact hget
    · rw [noneIndicesFrom, if_neg hr] at h
      obtain ⟨hle, hget⟩ := ih (n + 1) i h
      refine ⟨by omega, ?_⟩
      have he : i - n = (i - (n + 1)) + 1 := by omega
      rw [he, List.getElem?_cons_succ]
      exact hget

theorem mem_noneIndices (rs : List RelinkResult) (i : Nat) (h : i ∈ noneIndices rs) :
    rs[i]? = some .pyNone := by
  have := (mem_noneIndicesFrom rs 0 i h).2
  simpa using this

theorem mem_noneIndices_lt (rs : List RelinkResult) (i : Nat) (h : i ∈ noneIndices rs) :
    i < rs.length :=
  (List.getElem?_eq_some.mp (mem_noneIndices rs i h)).1

theorem noneIndicesFrom_pairwise (rs : List RelinkResult) :
    ∀ n, (noneIndicesFrom n rs).Pairwise (· < ·) := by
  induction rs with
  | nil => intro n; simp [noneIndicesFrom]
  | cons r rest ih =>
    intro n
    rw [noneIndicesFrom]
    by_cases hr : r = .pyNone
    · rw [if_pos hr]
      refine List.Pairwise.cons ?_ (ih (n + 1))
      intro j hj
      have := (mem_noneIndicesFrom rest (n + 1) j hj).1
      omega
    · rw [if_neg hr]
      exact ih (n + 1)

theorem noneIndices_nodup (rs : List RelinkResult) : (noneIndices rs).Nodup :=
  (noneIndicesFrom_pairwise rs 0).imp (fun h => Nat.ne_of_lt h)

theorem noneIndicesFrom_isEmpty (rs : List RelinkResult) :
    ∀ n, (noneIndicesFrom n rs).isEmpty = !rs.any (fun x => decide (x = .pyNone)) := by
  induction rs with
  | nil => intro n; rfl
  | cons r rest ih =>
    intro n
    by_cases hr : r = .pyNone
    · simp [noneIndicesFrom, hr]
    · simp [noneIndicesFrom, hr, ih (n + 1)]

theorem any_pyNone_of_noneIndices_ne_nil (rs : List RelinkResult)
    (h : noneIndices rs ≠ []) : rs.any (fun x => decide (x = .pyNone)) = true := by
  have := noneIndicesFrom_isEmpty rs 0
  rcases hany : rs.any (fun x => decide (x = .pyNone)) with _ | _
  · rw [hany] at this
    exact absurd (List.isEmpty_iff.mp this) h
  · rfl

theorem spliceFold_getElem?_not_mem (pairs : List (RelinkResult × Nat)) :
    ∀ (rs : List RelinkResult) (i : Nat), (∀ p ∈ pairs, p.2 ≠ i) →
      (pairs.foldl (fun acc p => acc.set p.2 p.1) rs)[i]? = rs[i]? := by
  induction pairs with
  | nil => intro rs i _; rfl
  | cons p rest ih =>
    intro rs i hne
    rw [List.foldl_cons, ih _ i (fun q hq => hne q (List.mem_cons_of_mem _ hq))]
    exact List.getElem?_set_ne (hne p (List.mem_cons_self _ _))

theorem spliceAt_getElem?_not_mem (rs : List RelinkResult) (idxs : List Nat)
    (fbRs : List RelinkResult) (i : Nat) (h : i ∉ idxs) :
    (spliceAt rs idxs fbRs)[i]? = rs[i]? := by
  apply spliceFold_getElem?_not_mem
  intro p hp hpi
  exact h (hpi ▸ (List.of_mem_zip hp).2)

theorem spliceAt_getElem?_at (fbRs : List RelinkResult) :
    ∀ (idxs : List Nat) (rs : List RelinkResult) (k i : Nat) (r : RelinkResult),
      idxs.Nodup → idxs[k]? = some i → fbRs[k]? = some r → i < rs.length →
      (spliceAt rs idxs fbRs)[i]? = some r := by
  induction fbRs with
  | nil =>
    intro idxs rs k i r _ _ hfb _
    simp at hfb
  | cons r0 fbRest ih =>
    intro idxs rs k i r hnd hidx hfb hlt
    cases idxs with
    | nil => simp at hidx
    | cons i0 iRest =>
      have hstep : spliceAt rs (i0 :: iRest) (r0 :: fbRest) =
          spliceAt (rs.set i0 r0) iRest fbRest := rfl
      rw [hstep]
      obtain ⟨hnotmem, hndRest⟩ := List.nodup_cons.mp hnd
      cases k with
      | zero =>
        rw [List.getElem?_cons_zero, Option.some_inj] at hidx hfb
        subst hidx
        subst hfb
        rw [spliceAt_getElem?_not_mem _ _ _ _ hnotmem]
        exact List.getElem?_set_self hlt
      | succ k =>
        rw [List.getElem?_cons_succ] at hidx hfb
        exact ih iRest (rs.set i0 r0) k i r hndRest hidx hfb
          (by rw [List.length_set]; exact hlt)

theorem selectIdxs_ok (objs : List ObjectData) :
    ∀ idxs : List Nat, (∀ i ∈ idxs, i < objs.length) →
      selectIdxs objs idxs = .ok (objsAt objs idxs) := by
  intro idxs
  induction idxs with
  | nil => intro _; rfl
  | cons i rest ih =>
    intro hb
    have hi : i < objs.length := hb i (List.mem_cons_self _ _)
    have hrest := ih (fun j hj => hb j (List.mem_cons_of_mem _ hj))
    show (match objs[i]? with
      | none => Except.error EngineError.indexError
      | some o => do
        let more ← selectIdxs objs rest
        Except.ok (o :: more)) = _
    rw [List.getElem?_eq_getElem hi, hrest]
    show Except.ok (objs[i] :: objsAt objs rest) = Except.ok (objsAt objs (i :: rest))
    have hc : objsAt objs (i :: rest) = objs[i] :: objsAt objs rest := by
      rw [objsAt, List.filterMap_cons, List.getElem?_eq_getElem hi]
      rfl
    rw [hc]

theorem objsAt_getElem? (objs : List ObjectData) :
    ∀ (idxs : List Nat), (∀ j ∈ idxs, j < objs.length) →
      ∀ (k i : Nat), idxs[k]? = some i → (objsAt objs idxs)[k]? = objs[i]? := by
  intro idxs
  induction idxs with
  | nil => intro _ k i h; simp at h
  | cons j rest ih =>
    intro hb k i hidx
    have hj : j < objs.length := hb j (List.mem_cons_self _ _)
    have hrec := ih (fun x hx => hb x (List.mem_cons_of_mem _ hx))
    have hc : objsAt objs (j :: rest) = objs[j] :: objsAt objs rest := by
      rw [objsAt, List.filterMap_cons, List.getElem?_eq_getElem hj]
      rfl
    rw [hc]
    cases k with
    | zero =>
      rw [List.getElem?_cons_zero, Option.some_inj] at hidx
      subst hidx
      rw [List.getElem?_cons_zero, List.getElem?_eq_getElem hj]
    | succ k =>
      rw [List.getElem?_cons_succ] at hidx
      rw [List.getElem?_cons_succ]
      exact hrec k i hidx

theorem exceptBind_ok {α β : Type} (a : α) (f : α → Except EngineError β) :
    (Except.ok a >>= f) = f a := rfl

/-- C6.  `BaseRelinkAction._execute`, for any action whose `execute` yields
the explicit `None` marker at some positions: with no fallback this is a
fatal configuration error; with a fallback, the fallback is invoked on
exactly the records at the `None` positions (last conjunct: those indices
are precisely the `None` outcomes; fourth conjunct: the k-th fallback
input is the record at the k-th `None` index and the k-th fallback output
lands at that index), leaving every other record's outcome unchanged
(third conjunct). -/
theorem c6_fallback_subset_splicing
    (runMain fbRun : List ObjectData → DB → Except EngineError (List RelinkResult × DB))
    (objs : List ObjectData) (db db1 db2 : DB) (rs fbRs : List RelinkResult)
    (hrun : runMain objs db = .ok (rs, db1))
    (hlen : rs.length = objs.length)
    (hne : noneIndices rs ≠ [])
    (hfb : fbRun (objsAt objs (noneIndices rs)) db1 = .ok (fbRs, db2))
    (hfblen : fbRs.length = (noneIndices rs).length) :
    baseExecute runMain none objs db = .error .noFallback ∧
      baseExecute runMain (some fbRun) objs db =
        .ok (spliceAt rs (noneIndices rs) fbRs, db2) ∧
      (∀ i : Nat, rs[i]? ≠ some .pyNone →
        (spliceAt rs (noneIndices rs) fbRs)[i]? = rs[i]?) ∧
      (∀ k i : Nat, (noneIndices rs)[k]? = some i →
        (objsAt objs (noneIndices rs))[k]? = objs[i]? ∧
          (spliceAt rs (noneIndices rs) fbRs)[i]? = fbRs[k]?) ∧
      (∀ i ∈ noneIndices rs, rs[i]? = some .pyNone) := by
  have hbound : ∀ i ∈ noneIndices rs, i < objs.length := by
    intro i hi
    have := mem_noneIndices_lt rs i hi
    omega
  have hany := any_pyNone_of_noneIndices_ne_nil rs hne
  have hsel := selectIdxs_ok objs (noneIndices rs) hbound
  refine ⟨?_, ?_, ?_, ?_, fun i hi => mem_noneIndices rs i hi⟩
  · unfold baseExecute
    rw [hrun]
    simp only [exceptBind_ok]
    rw [if_pos hany, hsel]
    rfl
  · unfold baseExecute
    rw [hrun]
    simp only [exceptBind_ok]
    rw [if_pos hany, hsel]
    simp only [exceptBind_ok]
    rw [hfb]
    rfl
  · intro i hnot
    apply spliceAt_getElem?_not_mem
    intro hmem
    exact hnot (mem_noneIndices rs i hmem)
  · intro k i hidx
    have hkmem : i ∈ noneIndices rs := by
      obtain ⟨hlt, he⟩ := List.getElem?_eq_some.mp hidx
      exact he ▸ List.getElem_mem hlt
    have hk : k < (noneIndices rs).length := (List.getElem?_eq_some.mp hidx).1
    have hkfb : k < fbRs.length := by omega
    refine ⟨objsAt_getElem? objs (noneIndices rs) hbound k i hidx, ?_⟩
    rw [spliceAt_getElem?_at fbRs (noneIndices rs) rs k i fbRs[k]
      (noneIndices_nodup rs) hidx (List.getElem?_eq_getElem hkfb)
      (mem_noneIndices_lt rs i hkmem)]
    rw [List.getElem?_eq_getElem hkfb]

/-- Witness for C6 at a concrete input: the main action resolves record 2
but yields `None` for record 1; with no fallback the run is a fatal error,
with a fallback returning instance 9 the final results are instance 9 for
record 1 and the unchanged instance 5 for record 2. -/
theorem c6_fallback_subset_splicing_witness :
    baseExecute (fun _ db => .ok ([.pyNone, .instR 5], db)) none
        [{ id := idA1 }, { id := idA2 }] {} = .error .noFallback ∧
      baseExecute (fun _ db => .ok ([.pyNone, .instR 5], db))
        (some (fun _ db => .ok ([.instR 9], db)))
        [{ id := idA1 }, { id := idA2 }] {} = .ok ([.instR 9, .instR 5], {}) := by
  have h := c6_fallback_subset_splicing
    (fun _ db => .ok ([.pyNone, .instR 5], db))
    (fun _ db => .ok ([.instR 9], db))
    [{ id := idA1 }, { id := idA2 }] {} {} {} [.pyNone, .instR 5] [.instR 9]
    rfl (by decide) (by decide) rfl (by decide)
  refine ⟨h.1, ?_⟩
  rw [h.2.1]
  have hs : spliceAt [RelinkResult.pyNone, .instR 5]
      (noneIndices [RelinkResult.pyNone, .instR 5]) [.instR 9] =
      [.instR 9, .instR 5] := by decide
  rw [hs]

theorem readDocuments_ok_ids (cfg : Config) (streamHandle : Nat) :
    ∀ (docs : List Document) (acc res : List ObjectData),
      readDocuments cfg streamHandle docs acc = .ok res →
      (∀ i ∈ docObjectIds docs, i ∉ objIds acc) ∧ (docObjectIds docs).Nodup := by
  intro docs
  induction docs with
  | nil =>
    intro acc res _
    exact ⟨by simp [docObjectIds], by simp [docObjectIds]⟩
  | cons d rest ih =>
    intro acc res h
    cases d with
    | header v kinds =>
      rw [readDocuments] at h
      split at h
      · exact absurd h (by simp)
      · split at h
        · exact absurd h (by simp)
        · have := ih acc res h
          simpa [docObjectIds] using this
    | object i data des atts =>
      rw [readDocuments] at h
      split at h
      · exact absurd h (by simp)
      · rename_i hnotmem
        obtain ⟨hsep, hnd⟩ := ih _ res h
        have hids : objIds (acc ++
            [{ id := i, serializedData := data, desData := des,
               attachments := atts.map (fun p => ⟨p.1, p.2, some streamHandle⟩) }]) =
            objIds acc ++ [i] := by
          simp [objIds]
        rw [hids] at hsep
        have hdoc : docObjectIds (.object i data des atts :: rest) = i :: docObjectIds rest := by
          simp [docObjectIds]
        rw [hdoc]
        constructor
        · intro j hj
          rcases List.mem_cons.mp hj with rfl | hjr
          · exact hnotmem
          · intro hja
            exact hsep j hjr (by simp [hja])
        · refine List.Pairwise.cons ?_ hnd
          intro j hjr heq
          exact hsep j hjr (by simp [heq])
    | other tag =>
      rw [readDocuments] at h
      exact absurd h (by simp)

/-- C5.  A container whose documents contain two object documents with the
same Identity fails during the read phase, and the import engine is never
entered: no record is materialized and no relink action is executed. -/
theorem c5_duplicate_identity_fatal (cfg : Config) (streamHandle : Nat)
    (docs : List Document) (db : DB) (k1 k2 : Nat) (i : ID)
    (hk : k1 < k2)
    (h1 : (docObjectIds docs)[k1]? = some i)
    (h2 : (docObjectIds docs)[k2]? = some i) :
    (∃ e, readDocuments cfg streamHandle docs [] = .error e) ∧
      (runSession cfg streamHandle docs db).1 = none := by
  have hnotok : ∀ res, readDocuments cfg streamHandle docs [] = .ok res → False := by
    intro res hok
    have hnd := (readDocuments_ok_ids cfg streamHandle docs [] res hok).2
    obtain ⟨hl1, he1⟩ := List.getElem?_eq_some.mp h1
    obtain ⟨hl2, he2⟩ := List.getElem?_eq_some.mp h2
    have hinj := List.nodup_iff_injective_get.mp hnd
    have : (⟨k1, hl1⟩ : Fin (docObjectIds docs).length) = ⟨k2, hl2⟩ := by
      apply hinj
      show (docObjectIds docs).get _ = (docObjectIds docs).get _
      rw [List.get_eq_getElem, List.get_eq_getElem, he1, he2]
    exact absurd (congrArg Fin.val this) (by simp; omega)
  rcases hread : readDocuments cfg streamHandle docs [] with e | res
  · exact ⟨⟨e, rfl⟩, by simp [runSession, hread]⟩
  · exact absurd hread (hnotok res)

/-- Witness for C5 at a concrete input: two object documents with id a-1. -/
theorem c5_duplicate_identity_fatal_witness :
    (∃ e, readDocuments { registeredKinds := ["a"], allKinds := ["a"] } 0
        [.object idA1 [] [] [], .object idA1 [] [] []] [] = .error e) ∧
      (runSession { registeredKinds := ["a"], allKinds := ["a"] } 0
        [.object idA1 [] [] [], .object idA1 [] [] []] {}).1 = none :=
  c5_duplicate_identity_fatal _ 0 _ {} 0 1 idA1 (by decide) (by decide) (by decide)

theorem mem_updateObj_image (st : EngineState) (j : ID) (f : ObjectData → ObjectData)
    (o : ObjectData) (ho : o ∈ st.objects) :
    (if o.id = j then f o else o) ∈ (updateObj st j f).objects :=
  List.mem_map_of_mem _ ho

theorem applyDeserialize_cons (st : EngineState) (j : ID) (rest : List ID) :
    applyDeserialize st (j :: rest) =
      applyDeserialize (updateObj st j (fun o =>
        { o with fields := some o.desData, refs := extractRefs o.desData })) rest := rfl

theorem objIds_updateObj (st : EngineState) (j : ID) (f : ObjectData → ObjectData)
    (hf : ∀ o, (f o).id = o.id) :
    objIds (updateObj st j f).objects = objIds st.objects := by
  simp only [objIds, updateObj, List.map_map]
  apply List.map_congr_left
  intro o _
  by_cases h : o.id = j <;> simp [h, hf]

theorem applyDeserialize_objIds (ids : List ID) :
    ∀ st : EngineState, objIds (applyDeserialize st ids).objects = objIds st.objects := by
  induction ids with
  | nil => intro st; rfl
  | cons j rest ih =>
    intro st
    rw [applyDeserialize_cons, ih]
    exact objIds_updateObj st j _ (fun o => rfl)

theorem weakWitness_updateObj (st : EngineState) (j oid : ID) (D : Fields)
    (h : ∃ o ∈ st.objects, o.id = oid ∧ o.desData = D) :
    ∃ o ∈ (updateObj st j (fun o =>
        { o with fields := some o.desData, refs := extractRefs o.desData })).objects,
      o.id = oid ∧ o.desData = D := by
  obtain ⟨o, ho, hid, hD⟩ := h
  by_cases hj : o.id = j
  · refine ⟨{ o with fields := some o.desData, refs := extractRefs o.desData },
      ?_, hid, hD⟩
    have hmem := mem_updateObj_image st j
      (fun o => { o with fields := some o.desData, refs := extractRefs o.desData }) o ho
    rw [if_pos hj] at hmem
    exact hmem
  · refine ⟨o, ?_, hid, hD⟩
    have hmem := mem_updateObj_image st j
      (fun o => { o with fields := some o.desData, refs := extractRefs o.desData }) o ho
    rw [if_neg hj] at hmem
    exact hmem

theorem weakWitness_applyDeserialize (ids : List ID) :
    ∀ (st : EngineState) (oid : ID) (D : Fields),
      (∃ o ∈ st.objects, o.id = oid ∧ o.desData = D) →
      ∃ o ∈ (applyDeserialize st ids).objects, o.id = oid ∧ o.desData = D := by
  induction ids with
  | nil => intro st oid D h; exact h
  | cons j rest ih =>
    intro st oid D h
    rw [applyDeserialize_cons]
    exact ih _ oid D (weakWitness_updateObj st j oid D h)

theorem strongWitness_updateObj (st : EngineState) (j oid : ID) (D : Fields)
    (h : ∃ o ∈ st.objects, o.id = oid ∧ o.desData = D ∧ o.refs = extractRefs D) :
    ∃ o ∈ (updateObj st j (fun o =>
        { o with fields := some o.desData, refs := extractRefs o.desData })).objects,
      o.id = oid ∧ o.desData = D ∧ o.refs = extractRefs D := by
  obtain ⟨o, ho, hid, hD, hR⟩ := h
  have hmem := mem_updateObj_image st j
    (fun o => { o with fields := some o.desData, refs := extractRefs o.desData }) o ho
  by_cases hj : o.id = j
  · rw [if_pos hj] at hmem
    exact ⟨_, hmem, hid, hD, by simp [hD]⟩
  · rw [if_neg hj] at hmem
    exact ⟨o, hmem, hid, hD, hR⟩

theorem strongWitness_preserved (ids : List ID) :
    ∀ (st : EngineState) (oid : ID) (D : Fields),
      (∃ o ∈ st.objects, o.id = oid ∧ o.desData = D ∧ o.refs = extractRefs D) →
      ∃ o ∈ (applyDeserialize st ids).objects,
        o.id = oid ∧ o.desData = D ∧ o.refs = extractRefs D := by
  induction ids with
  | nil => intro st oid D h; exact h
  | cons j rest ih =>
    intro st oid D h
    rw [applyDeserialize_cons]
    exact ih _ oid D (strongWitness_updateObj st j oid D h)

theorem strongWitness_applyDeserialize (ids : List ID) :
    ∀ (st : EngineState) (oid : ID) (D : Fields),
      oid ∈ ids → (∃ o ∈ st.objects, o.id = oid ∧ o.desData = D) →
      ∃ o ∈ (applyDeserialize st ids).objects,
        o.id = oid ∧ o.desData = D ∧ o.refs = extractRefs D := by
  induction ids with
  | nil => intro st oid D h; simp at h
  | cons j rest ih =>
    intro st oid D hmem hw
    rw [applyDeserialize_cons]
    rcases List.mem_cons.mp hmem with heq | hrest
    · subst heq
      obtain ⟨o, ho, hid, hD⟩ := hw
      have himg := mem_updateObj_image st oid
        (fun o => { o with fields := some o.desData, refs := extractRefs o.desData }) o ho
      rw [if_pos hid] at himg
      exact strongWitness_preserved rest _ oid D ⟨_, himg, hid, hD, by simp [hD]⟩
    · exact ih _ oid D hrest (weakWitness_updateObj st j oid D hw)

theorem findUnresolved_fires (objs : List ObjectData)
    (h : ∃ o ∈ objs, ∃ r ∈ o.refs, ∃ t ∈ r.ids, t ∉ objIds objs) :
    findUnresolved objs ≠ none := by
  intro hnone
  rw [findUnresolved, List.findSome?_eq_none_iff] at hnone
  obtain ⟨o, ho, r, hr, t, ht, hmem⟩ := h
  have h1 := hnone o ho
  rw [List.findSome?_eq_none_iff] at h1
  have h2 := h1 r hr
  rw [List.findSome?_eq_none_iff] at h2
  have h3 := h2 t ht
  rw [if_neg hmem] at h3
  simp at h3

theorem discardByIds_cons (st : EngineState) (i : ID) (rest : List ID) :
    discardByIds st (i :: rest) = discardByIds
      { st with
        discarded := if i ∈ st.discarded then st.discarded else st.discarded ++ [i]
        reportDiscarded := if i ∈ st.reportDiscarded then st.reportDiscarded
          else st.reportDiscarded ++ [i] } rest := rfl

theorem discardByIds_preserves (ids : List ID) :
    ∀ st : EngineState, (discardByIds st ids).objects = st.objects ∧
      (discardByIds st ids).instanceMap = st.instanceMap ∧
      (discardByIds st ids).orderingAttempted = st.orderingAttempted ∧
      (discardByIds st ids).relinkExecCount = st.relinkExecCount ∧
      (discardByIds st ids).postImportEvents = st.postImportEvents ∧
      (discardByIds st ids).attachmentEvents = st.attachmentEvents := by
  induction ids with
  | nil => intro st; exact ⟨rfl, rfl, rfl, rfl, rfl, rfl⟩
  | cons i rest ih =>
    intro st
    rw [discardByIds_cons]
    exact ih _

theorem applyDeserialize_preserves (ids : List ID) :
    ∀ st : EngineState,
      (applyDeserialize st ids).instanceMap = st.instanceMap ∧
      (applyDeserialize st ids).orderingAttempted = st.orderingAttempted ∧
      (applyDeserialize st ids).relinkExecCount = st.relinkExecCount ∧
      (applyDeserialize st ids).postImportEvents = st.postImportEvents ∧
      (applyDeserialize st ids).attachmentEvents = st.attachmentEvents := by
  induction ids with
  | nil => intro st; exact ⟨rfl, rfl, rfl, rfl, rfl⟩
  | cons j rest ih =>
    intro st
    rw [applyDeserialize_cons]
    exact ih _

theorem groupByKind_covers (objs : List ObjectData) (o : ObjectData) (ho : o ∈ objs) :
    ∃ ids, (o.id.kind, ids) ∈ groupByKind objs ∧ o.id ∈ ids := by
  refine ⟨(objIds objs).filter (fun i => decide (i.kind = o.id.kind)), ?_, ?_⟩
  · rw [groupByKind, groupIdsByKind]
    have hk : o.id.kind ∈ ((objIds objs).map (·.kind)).dedup := by
      rw [List.mem_dedup]
      exact List.mem_map_of_mem _ (List.mem_map_of_mem _ ho)
    exact List.mem_map_of_mem _ hk
  · rw [List.mem_filter]
    exact ⟨List.mem_map_of_mem _ ho, by simp⟩

theorem deserializeGo_errors (cfg : Config) :
    ∀ (groups : List (String × List ID)) (st : EngineState) (ids : List ID)
      (oid : ID) (D : Fields),
      (oid.kind, ids) ∈ groups → oid ∈ ids → oid.kind ∈ cfg.registeredKinds →
      (∃ o ∈ st.objects, o.id = oid ∧ o.desData = D) →
      (∃ r ∈ extractRefs D, ∃ t ∈ r.ids, t ∉ objIds st.objects) →
      (deserializeGo cfg groups st).2.isSome = true := by
  intro groups
  induction groups with
  | nil =>
    intro st ids oid D hmem
    simp at hmem
  | cons g rest ih =>
    intro st ids oid D hmem hin hreg hw hbrk
    obtain ⟨kind0, ids0⟩ := g
    rcases List.mem_cons.mp hmem with heq | hrest
    · rw [Prod.mk.injEq] at heq
      obtain ⟨h1, h2⟩ := heq
      subst h2
      rw [deserializeGo, ← h1, if_pos hreg]
      obtain ⟨o2, ho2, hid2, hD2, hR2⟩ := strongWitness_applyDeserialize ids st oid D hin hw
      obtain ⟨r, hr, t, ht, hnm⟩ := hbrk
      have hfires := findUnresolved_fires (applyDeserialize st ids).objects
        ⟨o2, ho2, r, by rw [hR2]; exact hr, t, ht, by rw [applyDeserialize_objIds]; exact hnm⟩
      cases hfu : findUnresolved (applyDeserialize st ids).objects with
      | none => exact absurd hfu hfires
      | some tri =>
        obtain ⟨t2, src2, f2⟩ := tri
        simp [hfu]
    · by_cases hreg0 : kind0 ∈ cfg.registeredKinds
      · rw [deserializeGo, if_pos hreg0]
        cases hfu : findUnresolved (applyDeserialize st ids0).objects with
        | some tri =>
          obtain ⟨t2, src2, f2⟩ := tri
          simp [hfu]
        | none =>
          simp only [hfu]
          refine ih _ ids oid D hrest hin hreg
            (weakWitness_applyDeserialize ids0 st oid D hw) ?_
          obtain ⟨r, hr, t, ht, hnm⟩ := hbrk
          exact ⟨r, hr, t, ht, by rw [applyDeserialize_objIds]; exact hnm⟩
      · by_cases hig : cfg.ignoreUnknown
        · rw [deserializeGo, if_neg hreg0, if_pos hig]
          obtain ⟨o, ho, hid, hD⟩ := hw
          obtain ⟨r, hr, t, ht, hnm⟩ := hbrk
          refine ih _ ids oid D hrest hin hreg
            ⟨o, by rw [(discardByIds_preserves ids0 st).1]; exact ho, hid, hD⟩
            ⟨r, hr, t, ht, by rw [(discardByIds_preserves ids0 st).1]; exact hnm⟩
        · rw [deserializeGo, if_neg hreg0, if_neg hig]
          rfl

theorem deserializeGo_preserves (cfg : Config) :
    ∀ (groups : List (String × List ID)) (st : EngineState),
      (deserializeGo cfg groups st).1.instanceMap = st.instanceMap ∧
      (deserializeGo cfg groups st).1.orderingAttempted = st.orderingAttempted ∧
      (deserializeGo cfg groups st).1.relinkExecCount = st.relinkExecCount ∧
      (deserializeGo cfg groups st).1.postImportEvents = st.postImportEvents ∧
      (deserializeGo cfg groups st).1.attachmentEvents = st.attachmentEvents := by
  intro groups
  induction groups with
  | nil => intro st; exact ⟨rfl, rfl, rfl, rfl, rfl⟩
  | cons g rest ih =>
    intro st
    obtain ⟨kind0, ids0⟩ := g
    by_cases hreg0 : kind0 ∈ cfg.registeredKinds
    · rw [deserializeGo, if_pos hreg0]
      cases hfu : findUnresolved (applyDeserialize st ids0).objects with
      | some tri =>
        obtain ⟨t, src, f⟩ := tri
        simp only [hfu]
        have hp := applyDeserialize_preserves ids0 st
        exact ⟨hp.1, hp.2.1, hp.2.2.1, hp.2.2.2.1, hp.2.2.2.2⟩
      | none =>
        simp only [hfu]
        have hp := applyDeserialize_preserves ids0 st
        have hr := ih (applyDeserialize st ids0)
        exact ⟨hr.1.trans hp.1, hr.2.1.trans hp.2.1, hr.2.2.1.trans hp.2.2.1,
          hr.2.2.2.1.trans hp.2.2.2.1, hr.2.2.2.2.trans hp.2.2.2.2⟩
    · by_cases hig : cfg.ignoreUnknown
      · rw [deserializeGo, if_neg hreg0, if_pos hig]
        have hp := discardByIds_preserves ids0 st
        have hr := ih (discardByIds st ids0)
        exact ⟨hr.1.trans hp.2.1, hr.2.1.trans hp.2.2.1, hr.2.2.1.trans hp.2.2.2.1,
          hr.2.2.2.1.trans hp.2.2.2.2.1, hr.2.2.2.2.trans hp.2.2.2.2.2⟩
      · rw [deserializeGo, if_neg hreg0, if_neg hig]
        exact ⟨rfl, rfl, rfl, rfl, rfl⟩

/-- C3.  If any loaded record of a registered kind carries a deserialized
reference whose target Identity is not among the loaded records, then the
run raises a fatal error during the deserialization phase: it ends
with an error, the ordering phase is never entered, and no record is
materialized (empty identity map, no relink execution, no post-import or
attachment-handler call). -/
theorem c3_missing_reference_fatal (cfg : Config) (objs : List ObjectData) (db : DB)
    (hbrk : ∃ o ∈ objs, o.id.kind ∈ cfg.registeredKinds ∧
      ∃ r ∈ extractRefs o.desData, ∃ t ∈ r.ids, t ∉ objIds objs) :
    (importObjects cfg (initialState objs db)).2.isSome = true ∧
      (importObjects cfg (initialState objs db)).1.orderingAttempted = false ∧
      (importObjects cfg (initialState objs db)).1.instanceMap = [] ∧
      (importObjects cfg (initialState objs db)).1.relinkExecCount = 0 ∧
      (importObjects cfg (initialState objs db)).1.postImportEvents = [] ∧
      (importObjects cfg (initialState objs db)).1.attachmentEvents = [] := by
  obtain ⟨o, ho, hreg, hb⟩ := hbrk
  obtain ⟨ids, hgrp, hin⟩ := groupByKind_covers objs o ho
  have herr := deserializeGo_errors cfg (groupByKind objs) (initialState objs db)
    ids o.id o.desData hgrp hin hreg ⟨o, ho, rfl, rfl⟩ hb
  rcases hres : deserializePhase cfg (initialState objs db) with ⟨st1, eopt⟩
  have herr2 : eopt.isSome = true := by
    have hx : (deserializePhase cfg (initialState objs db)).2.isSome = true := herr
    rw [hres] at hx
    exact hx
  cases eopt with
  | none => simp at herr2
  | some err =>
    have himp : importObjects cfg (initialState objs db) = (st1, some err) := by
      unfold importObjects
      rw [hres]
    have hpres := deserializeGo_preserves cfg (groupByKind objs) (initialState objs db)
    have hst1 : (deserializeGo cfg (groupByKind objs) (initialState objs db)).1 = st1 := by
      have hx : (deserializePhase cfg (initialState objs db)).1 = st1 := by rw [hres]
      exact hx
    rw [hst1] at hpres
    rw [himp]
    exact ⟨rfl, hpres.2.1, hpres.1, hpres.2.2.1, hpres.2.2.2.1, hpres.2.2.2.2⟩

/-- Witness for C3 at a concrete input: a single book whose `author` field
references an author absent from the container. -/
theorem c3_missing_reference_fatal_witness :
    (importObjects { registeredKinds := ["b"] } (initialState
        [{ id := idB1, desData := [("author", .ref ⟨[idA1], "author", false, false⟩)] }]
        {})).2.isSome = true ∧
      (importObjects { registeredKinds := ["b"] } (initialState
        [{ id := idB1, desData := [("author", .ref ⟨[idA1], "author", false, false⟩)] }]
        {})).1.instanceMap = [] := by
  have h := c3_missing_reference_fatal { registeredKinds := ["b"] }
    [{ id := idB1, desData := [("author", .ref ⟨[idA1], "author", false, false⟩)] }] {}
    ⟨{ id := idB1, desData := [("author", .ref ⟨[idA1], "author", false, false⟩)] },
      by decide, by decide,
      ⟨⟨[idA1], "author", false, false⟩, by decide, idA1, by decide, by decide⟩⟩
  exact ⟨h.1, h.2.2.1⟩

theorem flatten_map_append_perm {β γ : Type} (ys : List β) (g h : β → List γ) :
    ((ys.map (fun y => g y ++ h y)).flatten).Perm
      ((ys.map g).flatten ++ (ys.map h).flatten) := by
  induction ys with
  | nil => simp
  | cons y ys ih =>
    simp only [List.map_cons, List.flatten_cons]
    refine (List.Perm.append_left (g y ++ h y) ih).trans ?_
    rw [List.append_assoc, List.append_assoc]
    exact List.Perm.append_left _ (List.perm_append_comm_assoc _ _ _)

theorem flatten_map_swap_perm {α β γ : Type} (xs : List α) (ys : List β)
    (f : α → β → List γ) :
    ((xs.map (fun x => (ys.map (fun y => f x y)).flatten)).flatten).Perm
      ((ys.map (fun y => (xs.map (fun x => f x y)).flatten)).flatten) := by
  induction xs with
  | nil => simp
  | cons x xs ih =>
    simp only [List.map_cons, List.flatten_cons]
    refine (List.Perm.append_left _ ih).trans ?_
    exact (flatten_map_append_perm ys (fun y => f x y)
      (fun y => (xs.map (fun x2 => f x2 y)).flatten)).symm

theorem flatten_filter_key_perm {β : Type} (key : β → Nat) :
    ∀ (ss : List Nat) (l : List β), ss.Nodup → (∀ b ∈ l, key b ∈ ss) →
      ((ss.map (fun s => l.filter (fun b => decide (key b = s)))).flatten).Perm l := by
  intro ss
  induction ss with
  | nil =>
    intro l _ hcov
    cases l with
    | nil => simp
    | cons b bs => exact absurd (hcov b (by simp)) (by simp)
  | cons s rest ih =>
    intro l hnd hcov
    simp only [List.map_cons, List.flatten_cons]
    have hrest : rest.map (fun t => l.filter (fun b => decide (key b = t))) =
        rest.map (fun t => (l.filter (fun b => !decide (key b = s))).filter
          (fun b => decide (key b = t))) := by
      apply List.map_congr_left
      intro t htr
      rw [List.filter_filter]
      apply List.filter_congr
      intro b _
      by_cases hbt : key b = t
      · have hbs : ¬key b = s := by
          intro hs
          exact (List.nodup_cons.mp hnd).1 (hs ▸ hbt ▸ htr)
        have hts : ¬t = s := fun hts => hbs (hbt.trans hts)
        simp [hbt, hts]
      · simp [hbt]
    rw [hrest]
    have hcov2 : ∀ b ∈ l.filter (fun b => !decide (key b = s)), key b ∈ rest := by
      intro b hb
      have hbl := (List.mem_filter.mp hb).1
      have hbs : ¬key b = s := by simpa using (List.mem_filter.mp hb).2
      rcases List.mem_cons.mp (hcov b hbl) with h | h
      · exact absurd h hbs
      · exact h
    have ihr := ih (l.filter (fun b => !decide (key b = s)))
      (List.nodup_cons.mp hnd).2 hcov2
    exact (List.Perm.append_left _ ihr).trans (List.filter_append_perm _ l)

theorem flatten_map_perm_congr {α γ : Type} (xs : List α) (f g : α → List γ)
    (h : ∀ x ∈ xs, (f x).Perm (g x)) :
    ((xs.map f).flatten).Perm ((xs.map g).flatten) := by
  induction xs with
  | nil => simp
  | cons x xs ih =>
    simp only [List.map_cons, List.flatten_cons]
    exact (h x (List.mem_cons_self _ _)).append
      (ih (fun y hy => h y (List.mem_cons_of_mem _ hy)))

theorem attStreams_ok (atts : List Attachment)
    (h : ∀ a ∈ atts, a.containerStream.isSome = true) :
    attStreams atts = .ok (atts.filterMap (·.containerStream)) := by
  induction atts with
  | nil => rfl
  | cons a rest ih =>
    obtain ⟨s, hs⟩ := Option.isSome_iff_exists.mp (h a (List.mem_cons_self _ _))
    rw [attStreams, hs, ih (fun b hb => h b (List.mem_cons_of_mem _ hb)),
      List.filterMap_cons, hs]
    rfl

theorem collectStreams_ok (objs : List ObjectData)
    (h : ∀ o ∈ objs, ∀ a ∈ o.attachments, a.containerStream.isSome = true) :
    collectStreams objs =
      .ok ((objs.map (fun o => o.attachments.filterMap (·.containerStream))).flatten) := by
  induction objs with
  | nil => rfl
  | cons o rest ih =>
    rw [collectStreams, attStreams_ok o.attachments (h o (List.mem_cons_self _ _)),
      ih (fun p hp => h p (List.mem_cons_of_mem _ hp))]
    rfl

theorem deliverForStream_ok (imap : List (ID × Option Nat)) (disc : List ID) (s : Nat) :
    ∀ objs : List ObjectData,
      (∀ o ∈ objs, o.id ∉ disc → (imap.lookup o.id).isSome = true) →
      deliverForStream imap disc s objs = .ok ((objs.map (fun o =>
        if o.id ∈ disc then []
        else (o.attachments.filter (fun a => a.containerStream == some s)).map
          (mkAttachmentEvent ((imap.lookup o.id).join) s))).flatten) := by
  intro objs
  induction objs with
  | nil => intro _; rfl
  | cons o rest ih =>
    intro hmap
    have hrest := ih (fun p hp hd => hmap p (List.mem_cons_of_mem _ hp) hd)
    by_cases hd : o.id ∈ disc
    · rw [deliverForStream, if_pos hd, hrest]
      simp [hd]
    · by_cases hm : (o.attachments.filter (fun a => a.containerStream == some s)).isEmpty
      · rw [deliverForStream, if_neg hd, if_pos hm, hrest]
        have hnil : o.attachments.filter (fun a => a.containerStream == some s) = [] :=
          List.isEmpty_iff.mp hm
        simp [hd, hnil]
      · obtain ⟨inst, hinst⟩ := Option.isSome_iff_exists.mp
          (hmap o (List.mem_cons_self _ _) hd)
        rw [deliverForStream, if_neg hd, if_neg hm, hinst, hrest]
        simp only [List.map_cons, List.flatten_cons, if_neg hd, hinst]
        rfl

theorem deliverStreams_ok (imap : List (ID × Option Nat)) (disc : List ID)
    (objs : List ObjectData)
    (hmap : ∀ o ∈ objs, o.id ∉ disc → (imap.lookup o.id).isSome = true) :
    ∀ ss : List Nat,
      deliverStreams imap disc objs ss = .ok ((ss.map (fun s => (objs.map (fun o =>
        if o.id ∈ disc then []
        else (o.attachments.filter (fun a => a.containerStream == some s)).map
          (mkAttachmentEvent ((imap.lookup o.id).join) s))).flatten)).flatten) := by
  intro ss
  induction ss with
  | nil => rfl
  | cons s rest ih =>
    rw [deliverStreams, deliverForStream_ok imap disc s objs hmap, ih]
    rfl

/-- C7.  When the attachment phase runs (after all batches), given that
every attachment carries its container stream and every non-discarded
record is bound in the identity map, the phase succeeds and the calls to
the policy's attachment handler are exactly one per attachment of each
non-discarded record — each as the archive member named by the
attachment's id inside its own originating container stream, together with
the attachment's caller key and the record's mapped instance.  Attachments
of discarded records are never delivered. -/
theorem c7_attachments_delivered_once (objs : List ObjectData) (disc : List ID)
    (imap : List (ID × Option Nat))
    (hstream : ∀ o ∈ objs, ∀ a ∈ o.attachments, a.containerStream.isSome = true)
    (hmap : ∀ o ∈ objs, o.id ∉ disc → (imap.lookup o.id).isSome = true) :
    ∃ evs, attachmentsPhase objs disc imap = .ok evs ∧
      evs.Perm ((objs.map (fun o =>
        if o.id ∈ disc then []
        else o.attachments.map (fun a =>
          mkAttachmentEvent ((imap.lookup o.id).join) (a.containerStream.getD 0) a))).flatten) := by
  have hcoll := collectStreams_ok objs hstream
  have hdel := deliverStreams_ok imap disc objs hmap
    ((objs.map (fun o => o.attachments.filterMap (·.containerStream))).flatten).dedup
  refine ⟨(((objs.map (fun o => o.attachments.filterMap (·.containerStream))).flatten).dedup.map
      (fun s => (objs.map (fun o =>
        if o.id ∈ disc then []
        else (o.attachments.filter (fun a => a.containerStream == some s)).map
          (mkAttachmentEvent ((imap.lookup o.id).join) s))).flatten)).flatten, ?_, ?_⟩
  · rw [attachmentsPhase, hcoll]
    exact hdel
  · refine (flatten_map_swap_perm
      ((objs.map (fun o => o.attachments.filterMap (·.containerStream))).flatten).dedup objs
      (fun s o =>
        if o.id ∈ disc then []
        else (o.attachments.filter (fun a => a.containerStream == some s)).map
          (mkAttachmentEvent ((imap.lookup o.id).join) s))).trans ?_
    apply flatten_map_perm_congr
    intro o ho
    by_cases hd : o.id ∈ disc
    · simp [hd]
    · simp only [if_neg hd]
      have hrw : (((objs.map (fun o =>
          o.attachments.filterMap (·.containerStream))).flatten).dedup).map (fun s =>
            (o.attachments.filter (fun a => a.containerStream == some s)).map
              (mkAttachmentEvent ((imap.lookup o.id).join) s)) =
          (((objs.map (fun o =>
          o.attachments.filterMap (·.containerStream))).flatten).dedup).map (fun s =>
            (o.attachments.map (fun a => mkAttachmentEvent ((imap.lookup o.id).join)
              (a.containerStream.getD 0) a)).filter
              (fun e => decide (e.stream = s))) := by
        apply List.map_congr_left
        intro s _
        rw [List.filter_map]
        have hf : o.attachments.filter (fun a => a.containerStream == some s) =
            o.attachments.filter (fun a => decide ((mkAttachmentEvent
              ((imap.lookup o.id).join) (a.containerStream.getD 0) a).stream = s)) := by
          apply List.filter_congr
          intro a ha
          obtain ⟨t, ht⟩ := Option.isSome_iff_exists.mp (hstream o ho a ha)
          rw [ht]
          by_cases hts : t = s <;> simp [mkAttachmentEvent, hts]
        rw [hf]
        apply List.map_congr_left
        intro a haf
        have hs : (mkAttachmentEvent ((imap.lookup o.id).join)
            (a.containerStream.getD 0) a).stream = s := by
          have := (List.mem_filter.mp haf).2
          simpa using this
        simp only [mkAttachmentEvent] at hs ⊢
        rw [hs]
      rw [hrw]
      refine flatten_filter_key_perm (fun e => e.stream)
        (((objs.map (fun o => o.attachments.filterMap (·.containerStream))).flatten).dedup)
        (o.attachments.map (fun a => mkAttachmentEvent ((imap.lookup o.id).join)
          (a.containerStream.getD 0) a))
        (List.nodup_dedup _) ?_
      intro e he
      obtain ⟨a, ha, hea⟩ := List.mem_map.mp he
      obtain ⟨t, ht⟩ := Option.isSome_iff_exists.mp (hstream o ho a ha)
      show e.stream ∈ _
      rw [List.mem_dedup, List.mem_flatten]
      refine ⟨o.attachments.filterMap (·.containerStream),
        List.mem_map_of_mem _ ho, ?_⟩
      have hstream_e : e.stream = t := by
        rw [← hea]
        simp [mkAttachmentEvent, ht]
      rw [hstream_e]
      exact List.mem_filterMap.mpr ⟨a, ha, ht⟩

/-- Witness for C7 at a concrete input: a record with attachments in two
streams plus a discarded record whose attachment is never delivered. -/
theorem c7_attachments_delivered_once_witness :
    ∃ evs, attachmentsPhase
        [{ id := idA1, attachments := [⟨"x", 3, some 0⟩, ⟨"y", 4, some 1⟩] },
         { id := idA2, attachments := [⟨"z", 5, some 0⟩] }]
        [idA2] [(idA1, some 7)] = .ok evs ∧
      evs.Perm [⟨some 7, 3, 0, "attachments/x"⟩, ⟨some 7, 4, 1, "attachments/y"⟩] := by
  obtain ⟨evs, hok, hperm⟩ := c7_attachments_delivered_once
    [{ id := idA1, attachments := [⟨"x", 3, some 0⟩, ⟨"y", 4, some 1⟩] },
     { id := idA2, attachments := [⟨"z", 5, some 0⟩] }]
    [idA2] [(idA1, some 7)] (by decide) (by decide)
  refine ⟨evs, hok, hperm.trans ?_⟩
  decide

theorem kahnPeel_subset (deps : ID → List ID) :
    ∀ (fuel : Nat) (rem : List ID), ∀ x ∈ kahnPeel deps fuel rem, x ∈ rem := by
  intro fuel
  induction fuel with
  | zero => intro rem x hx; exact hx
  | succ n ih =>
    intro rem x hx
    rw [kahnPeel] at hx
    by_cases hrd : (readyNodes deps rem).isEmpty
    · rw [if_pos hrd] at hx; exact hx
    · rw [if_neg hrd] at hx
      exact (List.mem_filter.mp (ih _ x hx)).1

theorem kahnPeel_stall (deps : ID → List ID) :
    ∀ (fuel : Nat) (rem : List ID), rem.length ≤ fuel →
      kahnPeel deps fuel rem = [] ∨
        (kahnPeel deps fuel rem ≠ [] ∧ readyNodes deps (kahnPeel deps fuel rem) = []) := by
  intro fuel
  induction fuel with
  | zero =>
    intro rem hlen
    left
    have : rem = [] := List.eq_nil_of_length_eq_zero (Nat.le_zero.mp hlen)
    rw [kahnPeel, this]
  | succ n ih =>
    intro rem hlen
    rw [kahnPeel]
    by_cases hrd : (readyNodes deps rem).isEmpty
    · rw [if_pos hrd]
      by_cases hnil : rem = []
      · exact Or.inl hnil
      · exact Or.inr ⟨hnil, List.isEmpty_iff.mp hrd⟩
    · rw [if_neg hrd]
      apply ih
      have hne : readyNodes deps rem ≠ [] := fun h => hrd (by rw [h]; rfl)
      obtain ⟨x, hx⟩ := List.exists_mem_of_ne_nil _ hne
      have hxrem : x ∈ rem := (List.mem_filter.mp hx).1
      have hlt : (rem.filter (fun v => decide (v ∉ readyNodes deps rem))).length <
          rem.length := by
        apply List.length_filter_lt_length_iff_exists.mpr
        exact ⟨x, hxrem, by simp [hx]⟩
      omega

theorem stall_property (deps : ID → List ID) (S : List ID)
    (h : readyNodes deps S = []) : ∀ v ∈ S, ∃ d ∈ deps v, d ∈ S := by
  intro v hv
  by_contra hno
  push_neg at hno
  have hmem : v ∈ readyNodes deps S := by
    rw [readyNodes, List.mem_filter]
    refine ⟨hv, ?_⟩
    rw [List.all_eq_true]
    intro d hd
    simpa using hno d hd
  rw [h] at hmem
  exact absurd hmem (List.not_mem_nil v)

theorem stallWalk_mem (deps : ID → List ID) (S : List ID)
    (hS : ∀ v ∈ S, ∃ d ∈ deps v, d ∈ S) (v0 : ID) (hv0 : v0 ∈ S) :
    ∀ n, stallWalk deps S v0 n ∈ S := by
  intro n
  induction n with
  | zero => exact hv0
  | succ n ih =>
    rw [stallWalk, stallNext]
    obtain ⟨d, hd, hdS⟩ := hS _ ih
    have hsome : ((deps (stallWalk deps S v0 n)).find?
        (fun d => decide (d ∈ S))).isSome = true :=
      List.find?_isSome.mpr ⟨d, hd, by simpa using hdS⟩
    obtain ⟨w, hw⟩ := Option.isSome_iff_exists.mp hsome
    rw [hw]
    simpa using List.find?_some hw

theorem stallWalk_step (deps : ID → List ID) (S : List ID)
    (hS : ∀ v ∈ S, ∃ d ∈ deps v, d ∈ S) (v0 : ID) (hv0 : v0 ∈ S) (n : Nat) :
    stallWalk deps S v0 (n + 1) ∈ deps (stallWalk deps S v0 n) := by
  rw [stallWalk, stallNext]
  obtain ⟨d, hd, hdS⟩ := hS _ (stallWalk_mem deps S hS v0 hv0 n)
  have hsome : ((deps (stallWalk deps S v0 n)).find?
      (fun d => decide (d ∈ S))).isSome = true :=
    List.find?_isSome.mpr ⟨d, hd, by simpa using hdS⟩
  obtain ⟨w, hw⟩ := Option.isSome_iff_exists.mp hsome
  rw [hw]
  exact List.mem_of_find?_eq_some hw

theorem stallWalk_repeat (deps : ID → List ID) (S : List ID)
    (hS : ∀ v ∈ S, ∃ d ∈ deps v, d ∈ S) (v0 : ID) (hv0 : v0 ∈ S) :
    ∃ i j, i < j ∧ j ≤ S.length ∧ stallWalk deps S v0 i = stallWalk deps S v0 j := by
  by_contra hno
  push_neg at hno
  have hnd : ((List.range (S.length + 1)).map (stallWalk deps S v0)).Nodup := by
    refine List.Nodup.map_on ?_ (List.nodup_range _)
    intro x hx y hy hxy
    rcases Nat.lt_trichotomy x y with h | h | h
    · exact absurd hxy (hno x y h (by simpa using Nat.lt_succ_iff.mp (List.mem_range.mp hy)))
    · exact h
    · exact absurd hxy.symm (hno y x h (by simpa using Nat.lt_succ_iff.mp (List.mem_range.mp hx)))
  have hsub : ((List.range (S.length + 1)).map (stallWalk deps S v0)) ⊆ S := by
    intro x hx
    obtain ⟨k, _, hk⟩ := List.mem_map.mp hx
    exact hk ▸ stallWalk_mem deps S hS v0 hv0 k
  have hle := (hnd.subperm hsub).length_le
  rw [List.length_map, List.length_range] at hle
  omega

theorem isDepCycle_of_walk (deps : ID → List ID) (S : List ID)
    (hS : ∀ v ∈ S, ∃ d ∈ deps v, d ∈ S) (v0 : ID) (hv0 : v0 ∈ S)
    (i j : Nat) (hij : i < j) (heq : stallWalk deps S v0 i = stallWalk deps S v0 j) :
    IsDepCycle deps S ((List.range (j - i)).map (fun k => stallWalk deps S v0 (i + k))) := by
  refine ⟨?_, ?_, ?_⟩
  · intro hnil
    have hc := congrArg List.length hnil
    rw [List.length_map, List.length_range] at hc
    simp at hc
    omega
  · intro x hx
    obtain ⟨k, _, hk⟩ := List.mem_map.mp hx
    exact hk ▸ stallWalk_mem deps S hS v0 hv0 (i + k)
  · intro idx
    have hlen : ((List.range (j - i)).map (fun k => stallWalk deps S v0 (i + k))).length
        = j - i := by
      rw [List.length_map, List.length_range]
    have hidx : idx.1 < j - i := by
      have h1 := idx.isLt
      omega
    rw [List.get_eq_getElem, List.get_eq_getElem, List.getElem_map, List.getElem_map,
      List.getElem_range, List.getElem_range]
    rcases Nat.lt_or_ge (idx.1 + 1) (j - i) with hcase | hcase
    · have hmod : (idx.1 + 1) % ((List.range (j - i)).map
          (fun k => stallWalk deps S v0 (i + k))).length = idx.1 + 1 :=
        Nat.mod_eq_of_lt (by omega)
      have hgoal : stallWalk deps S v0 (i + ((idx.1 + 1) %
          ((List.range (j - i)).map (fun k => stallWalk deps S v0 (i + k))).length)) ∈
          deps (stallWalk deps S v0 (i + idx.1)) := by
        rw [hmod]
        have hadd : i + (idx.1 + 1) = (i + idx.1) + 1 := by omega
        rw [hadd]
        exact stallWalk_step deps S hS v0 hv0 (i + idx.1)
      exact hgoal
    · have heq2 : idx.1 + 1 = j - i := by omega
      have hmod : (idx.1 + 1) % ((List.range (j - i)).map
          (fun k => stallWalk deps S v0 (i + k))).length = 0 := by
        have h3 : idx.1 + 1 = ((List.range (j - i)).map
            (fun k => stallWalk deps S v0 (i + k))).length := by omega
        rw [h3, Nat.mod_self]
      have hgoal : stallWalk deps S v0 (i + ((idx.1 + 1) %
          ((List.range (j - i)).map (fun k => stallWalk deps S v0 (i + k))).length)) ∈
          deps (stallWalk deps S v0 (i + idx.1)) := by
        rw [hmod]
        have hj : j = (i + idx.1) + 1 := by omega
        have hw : stallWalk deps S v0 (i + 0) = stallWalk deps S v0 ((i + idx.1) + 1) := by
          rw [Nat.add_zero, heq]
          exact congrArg (stallWalk deps S v0) hj
        rw [hw]
        exact stallWalk_step deps S hS v0 hv0 (i + idx.1)
      exact hgoal

theorem stall_has_cycle (deps : ID → List ID) (S : List ID) (hSne : S ≠ [])
    (hS : ∀ v ∈ S, ∃ d ∈ deps v, d ∈ S) : ∃ c, IsDepCycle deps S c := by
  obtain ⟨v0, hv0⟩ := List.exists_mem_of_ne_nil S hSne
  obtain ⟨i, j, hij, _, heq⟩ := stallWalk_repeat deps S hS v0 hv0
  exact ⟨_, isDepCycle_of_walk deps S hS v0 hv0 i j hij heq⟩

theorem isDepCycle_step (deps : ID → List ID) (ns c : List ID)
    (hc : IsDepCycle deps ns c) : ∀ x ∈ c, ∃ y ∈ c, y ∈ deps x := by
  intro x hx
  obtain ⟨idx, hidx⟩ := List.mem_iff_get.mp hx
  refine ⟨c.get ⟨(idx.1 + 1) % c.length, Nat.mod_lt _ idx.pos⟩, List.get_mem _ _ _, ?_⟩
  rw [← hidx]
  exact hc.2.2 idx

theorem kahnPeel_cycle_stays (deps : ID → List ID) (c : List ID) (hc1 : c ≠ [])
    (hstep : ∀ x ∈ c, ∃ y ∈ c, y ∈ deps x) :
    ∀ (fuel : Nat) (rem : List ID), (∀ x ∈ c, x ∈ rem) → kahnPeel deps fuel rem ≠ [] := by
  intro fuel
  induction fuel with
  | zero =>
    intro rem hsub hnil
    rw [kahnPeel] at hnil
    obtain ⟨x, hx⟩ := List.exists_mem_of_ne_nil c hc1
    rw [hnil] at hsub
    exact absurd (hsub x hx) (List.not_mem_nil x)
  | succ n ih =>
    intro rem hsub
    rw [kahnPeel]
    by_cases hrd : (readyNodes deps rem).isEmpty
    · rw [if_pos hrd]
      intro hnil
      obtain ⟨x, hx⟩ := List.exists_mem_of_ne_nil c hc1
      rw [hnil] at hsub
      exact absurd (hsub x hx) (List.not_mem_nil x)
    · rw [if_neg hrd]
      apply ih
      intro x hx
      rw [List.mem_filter]
      refine ⟨hsub x hx, ?_⟩
      rw [decide_eq_true_eq]
      intro hxrd
      obtain ⟨y, hyc, hyd⟩ := hstep x hx
      rw [readyNodes, List.mem_filter] at hxrd
      have hall := hxrd.2
      rw [List.all_eq_true] at hall
      have hy := hall y hyd
      rw [decide_eq_true_eq] at hy
      exact hy (hsub y hyc)

/-- C4.  In the ordering phase, a retained record's dependency list
contains exactly the non-discarded targets of its non-weak references
(weak references never create edges), and the graph-build-plus-`prepare`
step aborts with the fatal cycle error if and only if the non-weak,
non-discarded dependency relation on the retained records has a cycle; a
cycle closed only through weak references creates no edges and cannot
abort. -/
theorem c4_cycle_abort_iff (st : EngineState) :
    ((buildAndPrepare st).2.isSome = true ↔
        ∃ c, IsDepCycle (sorterDepsFun st) (objIds (retainedObjs st)) c) ∧
      (∀ o ∈ st.objects, o.id ∉ st.discarded →
        ∀ v : ID, v ∈ engineDepsOf st.discarded o ↔
          ∃ r ∈ o.refs, r.weak = false ∧ v ∈ r.ids ∧ v ∉ st.discarded) := by
  constructor
  · by_cases hleft : (kahnPeel (sorterDepsFun st) (objIds (retainedObjs st)).length
        (objIds (retainedObjs st))).isEmpty
    · rw [buildAndPrepare, if_pos hleft]
      constructor
      · intro h
        simp at h
      · rintro ⟨c, hc⟩
        exfalso
        exact kahnPeel_cycle_stays (sorterDepsFun st) c hc.1 (isDepCycle_step _ _ _ hc)
          (objIds (retainedObjs st)).length (objIds (retainedObjs st))
          (fun x hx => hc.2.1 x hx) (List.isEmpty_iff.mp hleft)
    · rw [buildAndPrepare, if_neg hleft]
      constructor
      · intro _
        have hstall := kahnPeel_stall (sorterDepsFun st) (objIds (retainedObjs st)).length
          (objIds (retainedObjs st)) (Nat.le_refl _)
        rcases hstall with hnil | ⟨hne, hready⟩
        · exact absurd (by rw [hnil]; rfl) hleft
        · obtain ⟨c, hc⟩ := stall_has_cycle (sorterDepsFun st) _ hne
            (stall_property _ _ hready)
          exact ⟨c, hc.1,
            fun x hx => kahnPeel_subset _ _ _ x (hc.2.1 x hx), hc.2.2⟩
      · intro _
        rfl
  · intro o _ _ v
    simp only [engineDepsOf, List.mem_flatten, List.mem_map]
    constructor
    · rintro ⟨l, ⟨r, hr, rfl⟩, hv⟩
      rw [refDeps] at hv
      by_cases hw : r.weak
      · rw [if_pos hw] at hv
        exact absurd hv (List.not_mem_nil v)
      · rw [if_neg hw] at hv
        have hm := List.mem_filter.mp hv
        exact ⟨r, hr, by simpa using hw, hm.1, by simpa using hm.2⟩
    · rintro ⟨r, hr, hw, hvids, hvd⟩
      refine ⟨refDeps st.discarded r, ⟨r, hr, rfl⟩, ?_⟩
      rw [refDeps, if_neg (by simp [hw])]
      rw [List.mem_filter]
      exact ⟨hvids, by simpa using hvd⟩

/-- Witness for C4 at concrete inputs: two records whose non-weak
references form a two-cycle make `prepare` abort, while the same two
records linked only through weak references do not. -/
theorem c4_cycle_abort_iff_witness :
    (buildAndPrepare { objects := [
        { id := idA1, refs := [⟨[idA2], "other", false, false⟩] },
        { id := idA2, refs := [⟨[idA1], "other", false, false⟩] }] }).2.isSome = true ∧
      (buildAndPrepare { objects := [
        { id := idA1, refs := [⟨[idA2], "rev", false, true⟩] },
        { id := idA2, refs := [⟨[idA1], "rev", false, true⟩] }] }).2 = none := by
  constructor
  · apply (c4_cycle_abort_iff _).1.mpr
    exact ⟨[idA1, idA2], by decide, by decide, by decide⟩
  · decide
